import Mathlib

/-!
Verification of the MinerPick reconciliation engine
(`src/backend/parsers/fullParse_mineru.py` and `src/backend/parsers/base.py`)
against its natural-language specification.

Python strings are modelled as `List Char`, Python floats as `ℚ` (all the
arithmetic performed by the engine is on small rationals), dictionaries as
structures with `Option` fields for keys that may be absent, and bounded
loops as fuel-indexed structural recursion where the fuel equals the exact
number of remaining iterations.
-/

namespace MinerPick

abbrev Str := List Char

/-- Converts a Lean string literal to the `List Char` representation. -/
def str (s : String) : Str := s.data

/-- Whitespace test matching Python's `str.strip` / `\s` for the ASCII
whitespace characters that occur in markdown text. -/
def isPyWS (c : Char) : Bool :=
  c = ' ' || c = '\t' || c = '\n' || c = '\r' || c = '\x0b' || c = '\x0c'

/-- CJK unified ideograph test (basic block), used by the normalizer. -/
def isCJKChar (c : Char) : Bool :=
  0x4E00 ≤ c.toNat && c.toNat ≤ 0x9FFF

/-- Characters retained by text normalization: alphanumeric or CJK. -/
def keepChar (c : Char) : Bool :=
  c.isAlphanum || isCJKChar c

/-- ASCII lower-casing of a single character (Python `str.lower` restricted
to the character classes kept by the normalizer). -/
def lowerChar (c : Char) : Char :=
  if 65 ≤ c.toNat ∧ c.toNat ≤ 90 then Char.ofNat (c.toNat + 32) else c

/-- Modelled from the spec: the method `_normalize_match_text`, which
`fullParse_mineru.py` calls but which is defined nowhere in the repository
(see the attribute-resolution development further below).  Spec §4.1:
"`normalize(text) -> compactForm` strips whitespace and punctuation,
lower-cases, and retains alphanumeric and CJK ideographs only". -/
def normalize_match_text (s : Str) : Str :=
  (s.filter keepChar).map lowerChar

theorem char_toNat_ofNat (n : Nat) (h : Nat.isValidChar n) : (Char.ofNat n).toNat = n := by
  simp only [Char.ofNat, Char.toNat]
  rw [dif_pos h]
  rfl

theorem toNat_lowerChar_of_upper (c : Char) (h : 65 ≤ c.toNat ∧ c.toNat ≤ 90) :
    (lowerChar c).toNat = c.toNat + 32 := by
  have hvalid : Nat.isValidChar (c.toNat + 32) := by
    left
    omega
  unfold lowerChar
  rw [if_pos h]
  exact char_toNat_ofNat _ hvalid

theorem lowerChar_of_not_upper (c : Char) (h : ¬(65 ≤ c.toNat ∧ c.toNat ≤ 90)) :
    lowerChar c = c := by
  unfold lowerChar
  rw [if_neg h]

theorem lowerChar_lowerChar (c : Char) : lowerChar (lowerChar c) = lowerChar c := by
  by_cases h : 65 ≤ c.toNat ∧ c.toNat ≤ 90
  · have htn := toNat_lowerChar_of_upper c h
    apply lowerChar_of_not_upper
    rw [htn]
    omega
  · rw [lowerChar_of_not_upper c h, lowerChar_of_not_upper c h]

theorem isAlphanum_of_toNat_lower (c : Char) (h : 97 ≤ c.toNat ∧ c.toNat ≤ 122) :
    c.isAlphanum = true := by
  have h1 : (97 : UInt32) ≤ c.val := by
    show (97 : UInt32).toNat ≤ c.val.toNat
    simpa using h.1
  have h2 : c.val ≤ (122 : UInt32) := by
    show c.val.toNat ≤ (122 : UInt32).toNat
    simpa using h.2
  simp [Char.isAlphanum, Char.isAlpha, Char.isLower, h1, h2]

theorem keepChar_lowerChar (c : Char) (h : keepChar c = true) :
    keepChar (lowerChar c) = true := by
  by_cases hr : 65 ≤ c.toNat ∧ c.toNat ≤ 90
  · have htn := toNat_lowerChar_of_upper c hr
    have : (lowerChar c).isAlphanum = true := by
      apply isAlphanum_of_toNat_lower
      rw [htn]
      omega
    simp [keepChar, this]
  · rw [lowerChar_of_not_upper c hr]
    exact h

theorem normalize_match_text_idem (s : Str) :
    normalize_match_text (normalize_match_text s) = normalize_match_text s := by
  unfold normalize_match_text
  have hfil : ((s.filter keepChar).map lowerChar).filter keepChar
      = (s.filter keepChar).map lowerChar := by
    apply List.filter_eq_self.mpr
    intro c hc
    rcases List.mem_map.mp hc with ⟨d, hd, rfl⟩
    exact keepChar_lowerChar d (List.of_mem_filter hd)
  rw [hfil, List.map_map]
  apply List.map_congr_left
  intro c _
  exact lowerChar_lowerChar c

/-- Tests whether `p` starts the string `s` (character-wise). -/
def strStarts : Str → Str → Bool
  | [], _ => true
  | _ :: _, [] => false
  | p :: ps, c :: cs => p = c && strStarts ps cs

/-- Tests whether `a` occurs contiguously inside `b`: Python `a in b`. -/
def isSubstring (a : Str) : Str → Bool
  | [] => strStarts a []
  | c :: cs => strStarts a (c :: cs) || isSubstring a cs

/-- Distinct 2-character windows of a string: Python
`set(s[i:i+2] for i in range(len(s)-1))`. -/
def chunks2 (s : Str) : List (Char × Char) :=
  (s.zip s.tail).dedup

/-- Size of the intersection of two character sets. -/
def interCard (s1 s2 : List Char) : ℕ :=
  (s1.filter (· ∈ s2)).length

/-- Multiplication on `ℚ` through `Rat.divInt`, used instead of `*` so that
every arithmetic step of the model evaluates inside the kernel;
`qmul_eq` below identifies it with ordinary multiplication. -/
def qmul (a b : ℚ) : ℚ := Rat.divInt (a.num * b.num) ((a.den : ℤ) * b.den)

/-- Division on `ℚ` through `Rat.divInt`; `qdiv_eq` identifies it with
ordinary division. -/
def qdiv (a b : ℚ) : ℚ := Rat.divInt (a.num * b.den) ((a.den : ℤ) * b.num)

theorem qmul_eq (a b : ℚ) : qmul a b = a * b := by
  unfold qmul
  rw [← Rat.divInt_mul_divInt', Rat.num_divInt_den, Rat.num_divInt_den]

theorem qdiv_eq (a b : ℚ) : qdiv a b = a / b := by
  unfold qdiv
  rw [← Rat.divInt_mul_divInt', Rat.num_divInt_den, div_eq_mul_inv, ← Rat.inv_divInt,
    Rat.num_divInt_den]
  rfl

/-- The base score of `_calculate_text_similarity` lines 131-149 on two
already-normalized texts: character-set Jaccard times length ratio times
the substring bonus. -/
def simScore0 (t1 t2 : Str) : ℚ :=
  let s1 := t1.dedup
  let s2 := t2.dedup
  let jaccard : ℚ := qdiv (interCard s1 s2 : ℚ) ((s1 ++ s2).dedup.length : ℚ)
  let len_ratio : ℚ := qdiv (min t1.length t2.length : ℚ) (max t1.length t2.length : ℚ)
  let substring_bonus : ℚ :=
    if isSubstring t1 t2 || isSubstring t2 t1 then Rat.divInt 6 5 else 1
  qmul (qmul jaccard len_ratio) substring_bonus

/-- The 2-character-chunk score of `_calculate_text_similarity` lines
152-159: chunk-set Jaccard times 1.1. -/
def simChunkTerm (t1 t2 : Str) : ℚ :=
  qmul
    (qdiv (((chunks2 t1).filter (· ∈ chunks2 t2)).length : ℚ)
      (((chunks2 t1 ++ chunks2 t2).dedup.length : ℕ) : ℚ))
    (Rat.divInt 11 10)

/-- Embedding of `MinerUParser._calculate_text_similarity`
(`fullParse_mineru.py` lines 116-165); the Python floats are modelled as
exact rationals, and the score terms are factored into `simScore0` and
`simChunkTerm`. -/
def calculate_text_similarity (text1 text2 : Str) : ℚ :=
  if text1 = [] ∨ text2 = [] then 0
  else
    let t1 := normalize_match_text text1
    let t2 := normalize_match_text text2
    if t1 = [] ∨ t2 = [] then 0
    else if t1 = t2 then Rat.divInt 6 5
    else if (t1.dedup ++ t2.dedup).dedup.length = 0 then 0
    else
      let score0 := simScore0 t1 t2
      let score1 :=
        if t1.length > 10 ∨ t2.length > 10 then
          if chunks2 t1 ≠ [] ∧ chunks2 t2 ≠ [] then max score0 (simChunkTerm t1 t2)
          else score0
        else score0
      if (t1.length ≤ 4 ∨ t2.length ≤ 4) ∧ (isSubstring t1 t2 || isSubstring t2 t1) then
        max score1 (Rat.divInt 7 10)
      else score1

/-- True when the string has a run of at least four dots: the regex
`\.{4,}` of `_is_toc_entry`. -/
def hasDotRun : Str → Bool
  | '.' :: '.' :: '.' :: '.' :: _ => true
  | _ :: rest => hasDotRun rest
  | [] => false

/-- True when `s` ends in one-or-more whitespace followed by one-or-more
digits, the way `re.search(r"\s+\d+$", s)` matches at the end of the
string. -/
def endsWsDigitsCore (s : Str) : Bool :=
  let r := s.reverse
  let digits := r.takeWhile (·.isDigit)
  digits ≠ [] && (match (r.drop digits.length).head? with
    | some c => isPyWS c
    | none => false)

/-- The regex `\s+\d+$`: `$` also matches just before a final newline. -/
def endsWsDigits (s : Str) : Bool :=
  endsWsDigitsCore s ||
    (match s.reverse.head? with
     | some '\n' => endsWsDigitsCore (s.reverse.tail.reverse)
     | _ => false)

/-- Embedding of `MinerUParser._is_toc_entry`
(`fullParse_mineru.py` lines 43-53). -/
def is_toc_entry (text : Str) : Bool :=
  if text = [] then false
  else if hasDotRun text then true
  else if endsWsDigits text ∧ text.length > 10 then true
  else false

/-- One raw element of MinerU's `content_list`; dictionary keys that may be
absent are `Option` fields. -/
structure RawItem where
  type? : Option Str := none
  text? : Option Str := none
  page_idx : Option ℤ := none
  bbox : Option (ℚ × ℚ × ℚ × ℚ) := none
  id? : Option Str := none
  table_body? : Option Str := none
  html? : Option Str := none
  deriving DecidableEq, Repr

/-- A text candidate as prepared by `_build_md_first_content_list`: the raw
item plus its pre-computed `_norm` annotation. -/
structure Candidate where
  item : RawItem
  norm : Str
  deriving DecidableEq, Repr

/-- Accumulator state of the scan loop inside `_best_anchor_in_window`. -/
structure AnchorAcc where
  best_idx : Option ℕ := none
  best_score : ℚ := 0
  toc_matches : List (ℕ × ℚ) := []
  broke : Bool := false
  deriving DecidableEq, Repr

/-- One iteration step of the `for i in range(start_idx, end_idx)` loop of
`_best_anchor_in_window`; returns the updated accumulator. -/
def anchorStep (target_norm : Str) (candidates : List Candidate) (is_heading : Bool)
    (min_page_idx : ℤ) (i : ℕ) (acc : AnchorAcc) : AnchorAcc :=
  match candidates[i]? with
  | none => acc
  | some cand =>
    let cand_text := cand.item.text?.getD []
    let cand_norm := normalize_match_text cand_text
    if cand_norm = [] then acc
    else
      let cand_page := cand.item.page_idx.getD (-1)
      if min_page_idx ≥ 0 ∧ cand_page ≥ 0 ∧ cand_page < min_page_idx then acc
      else
        let score := calculate_text_similarity target_norm cand_norm
        if score > Rat.divInt 3 5 then
          if is_heading ∧ is_toc_entry cand_text then
            { acc with toc_matches := acc.toc_matches ++ [(i, score)] }
          else
            let acc' :=
              if score > acc.best_score then
                { acc with best_idx := some i, best_score := score }
              else acc
            if score > Rat.divInt 19 20 then { acc' with broke := true } else acc'
        else acc

/-- The scan loop of `_best_anchor_in_window`, by fuel equal to the number
of remaining window positions; `broke` models the `break` statement. -/
def anchorLoop (target_norm : Str) (candidates : List Candidate) (is_heading : Bool)
    (min_page_idx : ℤ) : ℕ → ℕ → AnchorAcc → AnchorAcc
  | 0, _, acc => acc
  | fuel + 1, i, acc =>
    if acc.broke then acc
    else
      anchorLoop target_norm candidates is_heading min_page_idx fuel (i + 1)
        (anchorStep target_norm candidates is_heading min_page_idx i acc)

/-- Stable insertion into a list sorted by the strict order `lt`; the new
element goes before the first entry it does not strictly follow. -/
def stableInsert (lt : α → α → Bool) (a : α) : List α → List α
  | [] => [a]
  | b :: bs => if lt b a then b :: stableInsert lt a bs else a :: b :: bs

/-- Stable sort (same result as Python's stable `list.sort`). -/
def stableSort (lt : α → α → Bool) : List α → List α
  | [] => []
  | a :: as' => stableInsert lt a (stableSort lt as')

/-- The selection after the scan loop of `_best_anchor_in_window` lines
106-114: the best index, or the top TOC match when it scores above 0.9
(`toc_matches` sorted by score descending, stable). -/
def anchorFinish (acc : AnchorAcc) : Option ℕ :=
  match acc.best_idx with
  | some i => some i
  | none =>
    let toc := stableSort (fun a b => a.2 > b.2) acc.toc_matches
    match toc.head? with
    | some e => if e.2 > Rat.divInt 9 10 then some e.1 else none
    | none => none

/-- Embedding of `MinerUParser._best_anchor_in_window`
(`fullParse_mineru.py` lines 55-114). -/
def best_anchor_in_window (target_text : Str) (candidates : List Candidate)
    (start_idx window_size : ℕ) (is_heading : Bool) (min_page_idx : ℤ) : Option ℕ :=
  if target_text = [] then none
  else
    let target_norm := normalize_match_text target_text
    if target_norm = [] then none
    else
      let end_idx := min candidates.length (start_idx + window_size)
      anchorFinish (anchorLoop target_norm candidates is_heading min_page_idx
        (end_idx - start_idx) start_idx {})

/-- Python `str.strip()` for the whitespace characters of `isPyWS`. -/
def pyStrip (s : Str) : Str :=
  ((s.dropWhile isPyWS).reverse.dropWhile isPyWS).reverse

/-- Python `str.rstrip()`. -/
def pyRStrip (s : Str) : Str :=
  (s.reverse.dropWhile isPyWS).reverse

/-- Python `s.replace("\r\n", "\n")` (left-to-right, non-overlapping). -/
def replaceCRLF : Str → Str
  | '\r' :: '\n' :: rest => '\n' :: replaceCRLF rest
  | c :: rest => c :: replaceCRLF rest
  | [] => []

/-- Splitting on maximal runs of two-or-more newlines, the effect of
`re.split(r"\n{2,}", s)`.  The first flag is true while a newline run is
being consumed. -/
def splitBlankAux : Bool → Str → Str → List Str
  | _, cur, [] => [cur.reverse]
  | false, cur, '\n' :: '\n' :: rest => cur.reverse :: splitBlankAux true [] rest
  | true, cur, '\n' :: rest => splitBlankAux true cur rest
  | true, cur, c :: rest => splitBlankAux false (c :: cur) rest
  | false, cur, c :: rest => splitBlankAux false (c :: cur) rest

def splitBlank (s : Str) : List Str := splitBlankAux false [] s

/-- Python `str.splitlines()` restricted to the line separators that can
occur in this pipeline's text. -/
def splitLinesAux : Str → Str → List Str
  | cur, [] => [cur.reverse]
  | cur, '\r' :: '\n' :: rest =>
    cur.reverse :: (if rest = [] then [] else splitLinesAux [] rest)
  | cur, '\n' :: rest =>
    cur.reverse :: (if rest = [] then [] else splitLinesAux [] rest)
  | cur, '\r' :: rest =>
    cur.reverse :: (if rest = [] then [] else splitLinesAux [] rest)
  | cur, c :: rest => splitLinesAux (c :: cur) rest

def splitLinesPy (s : Str) : List Str :=
  if s = [] then [] else splitLinesAux [] s

/-- Tests whether the lower-cased string starts with the (lower-case)
pattern, for the case-insensitive table regex. -/
def startsLowerWith (pat s : Str) : Bool :=
  strStarts pat (s.map lowerChar)

/-- Finds the first position at which `pat` occurs case-insensitively,
returning the prefix before it and the remainder starting at it. -/
def findLowerAux (pat : Str) (acc : Str) : Str → Option (Str × Str)
  | [] => if strStarts pat [] then some (acc.reverse, []) else none
  | c :: rest =>
    if startsLowerWith pat (c :: rest) then some (acc.reverse, c :: rest)
    else findLowerAux pat (c :: acc) rest

def findLower (pat s : Str) : Option (Str × Str) := findLowerAux pat [] s

/-- Splits the source into the segments produced by scanning for the
case-insensitive non-greedy regex `<table[\s\S]*?</table>`: alternating
non-table text and whole `<table>...</table>` fragments (tagged `true`).
Fuel-indexed; the fuel is the string length at the call site, and every
recursive call consumes at least one character. -/
def tableSegments : ℕ → Str → List (Bool × Str)
  | 0, s => if s = [] then [] else [(false, s)]
  | fuel + 1, s =>
    match findLower (str "<table") s with
    | none => if s = [] then [] else [(false, s)]
    | some (before, opening) =>
      match opening with
      | [] => if s = [] then [] else [(false, s)]
      | _ :: _ =>
        let afterOpen := opening.drop 6
        match findLower (str "</table>") afterOpen with
        | none => if s = [] then [] else [(false, s)]
        | some (inner, _closing) =>
          let tableBlock := (opening.take 6) ++ inner ++ (afterOpen.drop inner.length).take 8
          let rest := (afterOpen.drop inner.length).drop 8
          (false, before) :: (true, tableBlock) :: tableSegments fuel rest

/-- Embedding of `BaseParser._split_markdown_blocks` (`base.py` lines
25-47). -/
def split_markdown_blocks (md_text : Str) : List Str :=
  let src := pyStrip (replaceCRLF md_text)
  if src = [] then []
  else
    (tableSegments src.length src).flatMap fun seg =>
      match seg with
      | (true, t) => if pyStrip t = [] then [] else [pyStrip t]
      | (false, piece) =>
        if pyStrip piece = [] then []
        else (splitBlank piece).filterMap fun b =>
          if b = [] ∨ pyStrip b = [] then none else some (pyStrip b)

/-- Parses the segment `:?-{1,}:?\s*` of the markdown table separator
regex, returning the remainder on success. -/
def sepSegCore (s : Str) : Option Str :=
  let s2 := if s.head? = some ':' then s.tail else s
  let ds := s2.takeWhile (· = '-')
  if ds = [] then none
  else
    let s3 := s2.drop ds.length
    let s4 := if s3.head? = some ':' then s3.tail else s3
    some (s4.dropWhile isPyWS)

/-- Parses the repeated groups `(\|\s*:?-{1,}:?\s*)+` followed by
`\|?\s*$`; `count` is the number of groups parsed so far. -/
def sepGroups : ℕ → ℕ → Str → Bool
  | _, count, [] => count ≥ 1
  | 0, _, _ => false
  | fuel + 1, count, '|' :: rest =>
    let rest2 := rest.dropWhile isPyWS
    match sepSegCore rest2 with
    | some rem => sepGroups fuel (count + 1) rem
    | none => count ≥ 1 ∧ rest.dropWhile isPyWS = []
  | _ + 1, _, _ :: _ => false

/-- The separator-line test
`^\s*\|?\s*:?-{1,}:?\s*(\|\s*:?-{1,}:?\s*)+\|?\s*$` of
`_is_markdown_table_block`. -/
def isSepLine (s : Str) : Bool :=
  let s1 := s.dropWhile isPyWS
  let s2 := if s1.head? = some '|' then s1.tail.dropWhile isPyWS else s1
  match sepSegCore s2 with
  | none => false
  | some rem => sepGroups rem.length 0 rem

/-- Embedding of `BaseParser._is_markdown_table_block` (`base.py` lines
49-59). -/
def is_markdown_table_block (block : Str) : Bool :=
  if block = [] then false
  else
    let lines := ((splitLinesPy block).filter (fun ln => pyStrip ln ≠ [])).map pyRStrip
    if lines.length < 2 then false
    else if ¬ ('|' ∈ lines.headI) then false
    else isSepLine (lines.tail.headI)

/-- Embedding of `BaseParser._is_html_table_block` (`base.py` lines
61-65). -/
def is_html_table_block (block : Str) : Bool :=
  if block = [] then false
  else
    let s := (pyStrip block).map lowerChar
    isSubstring (str "<table") s && isSubstring (str "</table>") s

/-- The substitution `re.sub(r"^#{1,6}\s+", "", text)`: without MULTILINE
the anchor only matches at position 0, so at most one leading heading
marker is removed. -/
def stripHeadingMarker (s : Str) : Str :=
  let k := (s.takeWhile (· = '#')).length
  if 1 ≤ k ∧ k ≤ 6 then
    let rest := s.drop k
    let ws := rest.takeWhile isPyWS
    if ws ≠ [] then rest.drop ws.length else s
  else s

/-- Attempts `\s*[-*+]\s+` at a line start, returning whether the consumed
text ended in a newline together with the remainder. -/
def tryBullet (t : Str) : Option (Bool × Str) :=
  let ws := t.takeWhile isPyWS
  match t.drop ws.length with
  | b :: rest2 =>
    if b = '-' ∨ b = '*' ∨ b = '+' then
      let ws2 := rest2.takeWhile isPyWS
      if ws2 ≠ [] then some (ws2.getLast? = some '\n', rest2.drop ws2.length) else none
    else none
  | [] => none

/-- The substitution `re.sub(r"^\s*[-*+]\s+", "", text, flags=MULTILINE)`;
the flag records whether the current scan position is at a line start. -/
def stripBullets : ℕ → Bool → Str → Str
  | 0, _, s => s
  | _ + 1, _, [] => []
  | fuel + 1, true, c :: rest =>
    match tryBullet (c :: rest) with
    | some (endNL, rest') => stripBullets fuel endNL rest'
    | none => c :: stripBullets fuel (c = '\n') rest
  | fuel + 1, false, c :: rest => c :: stripBullets fuel (c = '\n') rest

/-- The substitution `re.sub(r"`{1,3}([^`]+)`{1,3}", r"\1", text)`. -/
def stripInlineCode : ℕ → Str → Str
  | 0, s => s
  | _ + 1, [] => []
  | fuel + 1, '`' :: rest =>
    let b := (('`' :: rest).takeWhile (· = '`')).length
    if b ≤ 3 then
      let afterOpen := ('`' :: rest).drop b
      let content := afterOpen.takeWhile (· ≠ '`')
      let r := afterOpen.drop content.length
      if content ≠ [] ∧ r.head? = some '`' then
        let closeRun := (r.takeWhile (· = '`')).length
        content ++ stripInlineCode fuel (r.drop (min closeRun 3))
      else '`' :: stripInlineCode fuel rest
    else '`' :: stripInlineCode fuel rest
  | fuel + 1, c :: rest => c :: stripInlineCode fuel rest

/-- The substitution `re.sub(r"!\[([^\]]*)\]\([^)]+\)", r"\1", text)`. -/
def stripImages : ℕ → Str → Str
  | 0, s => s
  | _ + 1, [] => []
  | fuel + 1, '!' :: '[' :: rest =>
    (let alt := rest.takeWhile (· ≠ ']')
     match rest.drop alt.length with
     | ']' :: '(' :: r3 =>
       let url := r3.takeWhile (· ≠ ')')
       let r4 := r3.drop url.length
       if url ≠ [] ∧ r4.head? = some ')' then alt ++ stripImages fuel r4.tail
       else '!' :: stripImages fuel ('[' :: rest)
     | _ => '!' :: stripImages fuel ('[' :: rest))
  | fuel + 1, c :: rest => c :: stripImages fuel rest

/-- The substitution `re.sub(r"\[([^\]]+)\]\([^)]+\)", r"\1", text)`. -/
def stripLinks : ℕ → Str → Str
  | 0, s => s
  | _ + 1, [] => []
  | fuel + 1, '[' :: rest =>
    (let label := rest.takeWhile (· ≠ ']')
     match label, rest.drop label.length with
     | _ :: _, ']' :: '(' :: r3 =>
       let url := r3.takeWhile (· ≠ ')')
       let r4 := r3.drop url.length
       if url ≠ [] ∧ r4.head? = some ')' then label ++ stripLinks fuel r4.tail
       else '[' :: stripLinks fuel rest
     | _, _ => '[' :: stripLinks fuel rest)
  | fuel + 1, c :: rest => c :: stripLinks fuel rest

/-- The substitution `re.sub(r"\s+", " ", text)`; the flag records whether
the previous character was whitespace. -/
def collapseWSAux : Bool → Str → Str
  | _, [] => []
  | inWS, c :: rest =>
    if isPyWS c then
      if inWS then collapseWSAux true rest else ' ' :: collapseWSAux true rest
    else c :: collapseWSAux false rest

/-- Embedding of `BaseParser._strip_markdown_text` (`base.py` lines
67-77). -/
def strip_markdown_text (block : Str) : Str :=
  let text := pyStrip block
  if text = [] then []
  else
    let t1 := stripHeadingMarker text
    let t2 := stripBullets t1.length true t1
    let t3 := stripInlineCode t2.length t2
    let t4 := stripImages t3.length t3
    let t5 := stripLinks t4.length t4
    pyStrip (collapseWSAux false t5)

/-- The heading test `re.match(r"^(#{1,6})\s+(.+)$", block.strip())` of
`_build_md_first_content_list` line 425, returning the heading level and
the stripped group 2 (`$` may only match at the end of the stripped block,
which carries no trailing whitespace, and `.+` cannot cross a newline). -/
def blockHeading (block : Str) : Option (ℕ × Str) :=
  let t := pyStrip block
  let k := (t.takeWhile (· = '#')).length
  if 1 ≤ k ∧ k ≤ 6 then
    let rest := t.drop k
    match rest.head? with
    | some c =>
      if isPyWS c then
        let body := rest.dropWhile isPyWS
        if body ≠ [] ∧ ¬ ('\n' ∈ body) then some (k, pyStrip body) else none
      else none
    | none => none
  else none

/-- A table cell as produced by `GMFTTableExtractor.get_cell_bboxes`
(`tableExtractor_gmft.py`), which always populates `r`, `c`, spans,
`is_header`, `page_idx` and `bbox`. -/
structure Cell where
  r : ℤ
  c : ℤ
  row_span : ℤ := 1
  col_span : ℤ := 1
  is_header : Bool := false
  page_idx : Option ℤ := none
  bbox : Option (ℚ × ℚ × ℚ × ℚ) := none
  deriving DecidableEq, Repr

/-- One value of the `content_tables` mapping (enriched table data). -/
structure EnrichedTable where
  page_idx : Option ℤ := none
  bbox : Option (ℚ × ℚ × ℚ × ℚ) := none
  md : Option Str := none
  html : Option Str := none
  text : Option Str := none
  cells : List Cell := []
  deriving DecidableEq, Repr

/-- A prepared table definition (`table_defs` entry) of
`_build_md_first_content_list`. -/
structure TableDef where
  id : Str
  page_idx : Option ℤ := none
  bbox : Option (ℚ × ℚ × ℚ × ℚ) := none
  table_body : Option Str := none
  cells : List Cell := []
  is_enriched : Bool := false
  deriving DecidableEq, Repr

/-- One emitted entry of the final content list; absent dictionary keys are
`none`. -/
structure ContentItem where
  type_ : Str
  md_index : ℕ
  text? : Option Str := none
  text_level : Option ℕ := none
  page_idx : Option ℤ := none
  bbox : Option (ℚ × ℚ × ℚ × ℚ) := none
  id : Option Str := none
  table_body : Option Str := none
  deriving DecidableEq, Repr

/-- Python `str(x)` on an optional id: `str(None)` is the text `None`. -/
def pyStrId : Option Str → Str
  | some s => s
  | none => str "None"

/-- Python `a or b` on optional strings, where `None` and the empty string
are falsy. -/
def orTruthy (a b : Option Str) : Option Str :=
  match a with
  | some s => if s = [] then b else some s
  | none => b

/-- The `_sort_key` tuple of `_build_md_first_content_list` lines 192-201:
page index (or 10^9 when absent) then the bbox's y0 (or 0). -/
def sortKeyOf (page_idx : Option ℤ) (bbox : Option (ℚ × ℚ × ℚ × ℚ)) : ℤ × ℚ :=
  (page_idx.getD (10 ^ 9), match bbox with | some b => b.2.1 | none => 0)

/-- Strict lexicographic comparison of sort keys. -/
def keyLt (a b : ℤ × ℚ) : Bool :=
  a.1 < b.1 || (a.1 = b.1 && decide (a.2 < b.2))

def candKey (c : Candidate) : ℤ × ℚ := sortKeyOf c.item.page_idx c.item.bbox

def rawKey (t : RawItem) : ℤ × ℚ := sortKeyOf t.page_idx t.bbox

def defKey (d : TableDef) : ℤ × ℚ := sortKeyOf d.page_idx d.bbox

def enrKey (t : EnrichedTable) : ℤ × ℚ := sortKeyOf t.page_idx t.bbox

/-- Python `str.isdigit` restricted to ASCII digits. -/
def isDigitStr (s : Str) : Bool :=
  s ≠ [] && s.all (·.isDigit)

/-- The candidate/table partition of the input scan at
`_build_md_first_content_list` lines 175-190: discarded items are dropped,
tables collected, and non-empty text items annotated with `_norm`. -/
def prepareCandidatesTables (raw : List RawItem) : List Candidate × List RawItem :=
  raw.foldl
    (fun acc it =>
      if it.type? = some (str "discarded") then acc
      else if it.type? = some (str "table") then (acc.1, acc.2 ++ [it])
      else
        match it.text? with
        | none => acc
        | some txt =>
          if pyStrip txt = [] then acc
          else (acc.1 ++ [{ item := it, norm := normalize_match_text txt }], acc.2))
    ([], [])

/-- The `table_defs` preparation of `_build_md_first_content_list` lines
205-254: sorted enriched definitions first, raw MinerU tables whose id was
not consumed appended, and a final sort by page and y0. -/
def buildTableDefs (content_tables : List (Str × EnrichedTable)) (tables : List RawItem) :
    List TableDef :=
  let table_items := stableSort (fun x y => keyLt (enrKey x.2) (enrKey y.2)) content_tables
  let enriched_defs : List TableDef := table_items.map fun p =>
    { id := p.1, page_idx := p.2.page_idx, bbox := p.2.bbox,
      table_body := orTruthy p.2.md (orTruthy p.2.html p.2.text),
      cells := p.2.cells, is_enriched := true }
  let used_mineru_ids :=
    (table_items.filter fun p => isDigitStr p.1 || strStarts (str "m_table_") p.1).map (·.1)
  let raw_to_add := tables.filter fun t => ¬ (pyStrId t.id? ∈ used_mineru_ids)
  let raw_sorted := stableSort (fun x y => keyLt (rawKey x) (rawKey y)) raw_to_add
  let raw_defs : List TableDef := raw_sorted.map fun t =>
    { id := pyStrId t.id?, page_idx := t.page_idx, bbox := t.bbox,
      table_body := orTruthy t.table_body? (orTruthy t.html? t.text?),
      cells := [], is_enriched := false }
  stableSort (fun x y => keyLt (defKey x) (defKey y)) (enriched_defs ++ raw_defs)

/-- The mutable alignment state threaded through the block loop of
`_build_md_first_content_list` lines 256-265. -/
structure AlignState where
  cand_ptr : ℕ := 0
  table_ptr : ℕ := 0
  used_table_indices : List ℕ := []
  last_matched_page_idx : ℤ := 0
  content_tables : List (Str × EnrichedTable) := []
  out : List ContentItem := []
  new_blocks : List Str := []
  deriving DecidableEq, Repr

/-- One step of the windowed table search of
`_build_md_first_content_list` lines 286-303: similarity of the block to
the definition's body, an elif chain of page-distance multipliers, and a
strictly-improving best update.  The constructed `table_defs` dictionaries
always contain the `page_idx` key (lines 223 and 246), so a page-less
definition yields `None` there, and line 295's `abs(None - int)` raises
`TypeError` in the source; this total function substitutes 0 and
`tableWindowRaises` models the raise. -/
def tableWindowStep (block : Str) (table_defs : List TableDef) (used : List ℕ)
    (current_cand_page : ℤ) (best : Option ℕ × ℚ) (i : ℕ) : Option ℕ × ℚ :=
  if i ∈ used then best
  else
    match table_defs[i]? with
    | none => best
    | some t_def =>
      let score := calculate_text_similarity block (t_def.table_body.getD [])
      let table_page := t_def.page_idx.getD 0
      let page_diff := |table_page - current_cand_page|
      let score :=
        if page_diff > 2 then qmul score (Rat.divInt 7 10)
        else if page_diff = 0 then qmul score (Rat.divInt 6 5)
        else score
      if score > best.2 then (some i, score) else best

/-- One step of the widened fallback search of
`_build_md_first_content_list` lines 306-322, with the backward-page and
far-page penalties.  A page-less definition yields `None` for the
always-present `page_idx` key and raises `TypeError` at the line 314 or
line 317 comparison; this total function substitutes 0 and
`tableFallbackRaises` models the raise. -/
def tableFallbackStep (block : Str) (table_defs : List TableDef) (used : List ℕ)
    (current_cand_page last_matched_page_idx : ℤ) (best : Option ℕ × ℚ) (i : ℕ) :
    Option ℕ × ℚ :=
  if i ∈ used then best
  else
    match table_defs[i]? with
    | none => best
    | some t_def =>
      let score := calculate_text_similarity block (t_def.table_body.getD [])
      let table_page := t_def.page_idx.getD 0
      let score :=
        if last_matched_page_idx > 0 ∧ table_page < last_matched_page_idx then
          qmul score (Rat.divInt 1 10)
        else score
      let page_diff := |table_page - current_cand_page|
      let score := if page_diff > 4 then qmul score (Rat.divInt 1 2) else score
      if score > best.2 then (some i, score) else best

/-- The last-resort scan of `_build_md_first_content_list` lines 325-333:
the first unused definition whose page is not before the floor.  A
page-less definition yields `None` for the always-present `page_idx` key
and line 330's `t_page >= last_matched_page_idx` raises `TypeError`; this
total function substitutes 0 and `tableLastResortRaises` models the
raise. -/
def tableLastResort (table_defs : List TableDef) (used : List ℕ)
    (last_matched_page_idx : ℤ) : Option ℕ :=
  (List.range table_defs.length).find? fun i =>
    ¬ (i ∈ used) ∧
      (table_defs.getD i { id := [] }).page_idx.getD 0 ≥ last_matched_page_idx

/-- Ascending sorted distinct header-row indices of a cell list:
`sorted(list(set(c.get("r") for c in nt_cells if c.get("is_header"))))`. -/
def headerRowsOf (cells : List Cell) : List ℤ :=
  stableSort (fun a b => decide (a < b)) (((cells.filter (·.is_header)).map (·.r)).dedup)

/-- Distinct column count:
`len(set(c.get("c") for c in t_cells)) if t_cells else 0`. -/
def distinctCols (cells : List Cell) : ℕ :=
  ((cells.map (·.c)).dedup).length

/-- The row maximum `max(c.get("r", 0) for c in combined_cells)` of
`_build_md_first_content_list` line 366, `-1` on an empty list. -/
def maxRowOf (cells : List Cell) : ℤ :=
  match cells.map (·.r) with
  | [] => -1
  | x :: xs => xs.foldl max x

/-- The per-cell body of the continuation merge loop
(`_build_md_first_content_list` lines 370-377): header rows are dropped,
other rows are renumbered by `r - (header rows below r) + row_offset`. -/
def contRenumber (nt_header_rows : List ℤ) (row_offset : ℤ) (nc : Cell) : Option Cell :=
  if nc.r ∈ nt_header_rows then none
  else
    let num_headers_before := ((nt_header_rows.filter (· < nc.r)).length : ℤ)
    some { nc with r := nc.r - num_headers_before + row_offset }

/-- The cell merge of a cross-page continuation,
`_build_md_first_content_list` lines 365-377: header rows of the
continuation are dropped, the remaining rows renumbered by
`r - (header rows below r) + (max row of the accumulated cells + 1)`. -/
def merge_continuation_cells (combined_cells nt_cells : List Cell) : List Cell :=
  let max_row : ℤ := maxRowOf combined_cells
  let nt_header_rows := headerRowsOf nt_cells
  let row_offset := max_row + 1
  combined_cells ++ nt_cells.filterMap (contRenumber nt_header_rows row_offset)

/-- Loop state of the continuation-scan `while` loop
(`_build_md_first_content_list` lines 344-388). -/
structure ContState where
  t : TableDef
  ids : List Str
  combined : List Cell
  used : List ℕ
  last : ℤ
  next_idx : ℕ
  deriving DecidableEq, Repr

/-- The continuation `while` loop; the fuel is the number of definitions
after `next_idx`, which bounds its iterations.  The page test of line 361
reads `t.get("page_idx") + 1`, only defined when the matched definition
carries an integer page: with a page-less `t` the source raises
`TypeError` as soon as an unused definition is reached, which `contRaises`
models; this total function treats pages absent on either side as
non-continuations. -/
def contLoop (table_defs : List TableDef) : ℕ → ContState → ContState
  | 0, cst => cst
  | fuel + 1, cst =>
    if h : cst.next_idx < table_defs.length then
      if cst.next_idx ∈ cst.used then
        contLoop table_defs fuel { cst with next_idx := cst.next_idx + 1 }
      else
        let nt := table_defs.get ⟨cst.next_idx, h⟩
        let t_cols := distinctCols cst.t.cells
        let nt_cols := distinctCols nt.cells
        let contOk : Bool :=
          match cst.t.page_idx, nt.page_idx with
          | some tp, some np => np = tp + 1
          | _, _ => false
        if contOk ∧ t_cols = nt_cols ∧ t_cols > 0 then
          let combined' := merge_continuation_cells cst.combined nt.cells
          let last' := match nt.page_idx with | some p => p | none => cst.last
          contLoop table_defs fuel
            { t := nt, ids := cst.ids ++ [nt.id], combined := combined',
              used := cst.used ++ [cst.next_idx], last := last',
              next_idx := cst.next_idx + 1 }
        else cst
    else cst

/-- The write-back of merged cells into the `content_tables` mapping
(`_build_md_first_content_list` lines 391-394). -/
def updateCells (ct : List (Str × EnrichedTable)) (tid : Str) (cells : List Cell) :
    List (Str × EnrichedTable) :=
  ct.map fun p => if p.1 = tid then (p.1, { p.2 with cells := cells }) else p

/-- The candidate-pointer advance of `_build_md_first_content_list` lines
397-400; fuel is the number of remaining candidates. -/
def advanceCandPtr (candidates : List Candidate) (table_page : ℤ) : ℕ → ℕ → ℕ
  | 0, ptr => ptr
  | fuel + 1, ptr =>
    if h : ptr < candidates.length then
      if (candidates.get ⟨ptr, h⟩).item.page_idx.getD 0 < table_page then
        advanceCandPtr candidates table_page fuel (ptr + 1)
      else ptr
    else ptr

/-- The value `candidates[cand_ptr].get("page_idx", 0) if cand_ptr <
len(candidates) else 0` of `_build_md_first_content_list` line 281. -/
def currentCandPage (candidates : List Candidate) (ptr : ℕ) : ℤ :=
  if h : ptr < candidates.length then
    (candidates.get ⟨ptr, h⟩).item.page_idx.getD 0
  else 0

/-- The complete table-definition choice of
`_build_md_first_content_list` lines 276-333: windowed search, widened
fallback when below 0.2, and the positional last resort. -/
def chooseTableIdx (block : Str) (table_defs : List TableDef) (used : List ℕ)
    (current_cand_page last_matched_page_idx : ℤ) (table_ptr : ℕ) : Option ℕ :=
  let search_start := table_ptr - 1
  let search_end := min table_defs.length (table_ptr + 5)
  let best0 := (List.range' search_start (search_end - search_start)).foldl
    (tableWindowStep block table_defs used current_cand_page) (none, 0)
  let best1 :=
    if best0.2 < Rat.divInt 1 5 then
      (List.range table_defs.length).foldl
        (tableFallbackStep block table_defs used current_cand_page last_matched_page_idx)
        best0
    else best0
  match best1.1 with
  | some i => some i
  | none => tableLastResort table_defs used last_matched_page_idx

/-- The table branch of the block loop
(`_build_md_first_content_list` lines 269-421). -/
def processTableBlock (candidates : List Candidate) (table_defs : List TableDef)
    (st : AlignState) (md_index : ℕ) (block : Str) : AlignState :=
  match chooseTableIdx block table_defs st.used_table_indices
      (currentCandPage candidates st.cand_ptr) st.last_matched_page_idx st.table_ptr with
  | none =>
    let item : ContentItem := { type_ := str "table", md_index := md_index, text? := some block }
    { st with out := st.out ++ [item], new_blocks := st.new_blocks ++ [block] }
  | some idx =>
    let current_cand_page := currentCandPage candidates st.cand_ptr
    let t := table_defs.getD idx { id := [] }
    let last1 := match t.page_idx with | some p => p | none => st.last_matched_page_idx
    let cst := contLoop table_defs (table_defs.length - (idx + 1))
      { t := t, ids := [t.id], combined := t.cells,
        used := st.used_table_indices ++ [idx], last := last1, next_idx := idx + 1 }
    let content_tables' :=
      if cst.ids.length > 1 then updateCells st.content_tables cst.ids.headI cst.combined
      else st.content_tables
    let cand_ptr' :=
      match t.page_idx with
      | some p =>
        if p > current_cand_page then
          advanceCandPtr candidates p (candidates.length - st.cand_ptr) st.cand_ptr
        else st.cand_ptr
      | none => st.cand_ptr
    let body := match t.table_body with
      | some s => if s = [] then block else s
      | none => block
    let item : ContentItem :=
      { type_ := str "table", md_index := md_index, id := some cst.ids.headI,
        page_idx := t.page_idx, bbox := t.bbox, table_body := some body }
    { st with
      used_table_indices := cst.used
      last_matched_page_idx := cst.last
      table_ptr := cst.next_idx
      content_tables := content_tables'
      cand_ptr := cand_ptr'
      out := st.out ++ [item]
      new_blocks := st.new_blocks ++ [body] }

/-- The matchable text of a non-table block
(`_build_md_first_content_list` lines 424-430): the stripped heading body
for heading blocks, the markup-stripped text otherwise. -/
def blockPlain (block : Str) : Str :=
  match blockHeading block with
  | some hp => hp.2
  | none => strip_markdown_text block

/-- The greedy forward-merge loop of `_build_md_first_content_list` lines
462-503; returns the final pointer, merged text, merged bbox and absorbed
count.  The fuel equals the remaining window length.  The page test of
line 467 reads `page_idx + 1`: with a page-less anchor the source raises
`TypeError` at the first scanned candidate that carries a page, which
`absorbRaisesLoop` models; this total function exits the loop there. -/
def absorbLoop (candidates : List Candidate) (plain_norm : Str) (page_idx : Option ℤ)
    (ai : ℕ) : ℕ → ℕ → Str → Option (ℚ × ℚ × ℚ × ℚ) → ℕ →
    ℕ × Str × Option (ℚ × ℚ × ℚ × ℚ) × ℕ
  | 0, np, mt, mb, mc => (np, mt, mb, mc)
  | fuel + 1, np, mt, mb, mc =>
    if h : np < candidates.length ∧ np < ai + 20 then
      let cand := candidates.get ⟨np, h.1⟩
      let cand_page := cand.item.page_idx
      let breakPage : Bool :=
        if cand_page = page_idx then false
        else
          match page_idx with
          | some p => ¬ (cand_page = some (p + 1))
          | none => true
      if breakPage then (np, mt, mb, mc)
      else
        let cand_text := cand.norm
        if cand_text = [] then
          absorbLoop candidates plain_norm page_idx ai fuel (np + 1) mt mb mc
        else
          let combined := mt ++ cand_text
          let sim_curr := calculate_text_similarity plain_norm mt
          let sim_new := calculate_text_similarity plain_norm combined
          let is_substr := isSubstring combined plain_norm
          if sim_new ≥ sim_curr ∨ is_substr = true ∨ sim_new > Rat.divInt 7 10 then
            let mb' :=
              match cand.item.bbox, mb with
              | some cb, some m =>
                if cand_page = page_idx then
                  some (min m.1 cb.1, min m.2.1 cb.2.1,
                    max m.2.2.1 cb.2.2.1, max m.2.2.2 cb.2.2.2)
                else mb
              | _, _ => mb
            absorbLoop candidates plain_norm page_idx ai fuel (np + 1) combined mb' (mc + 1)
          else (np, mt, mb, mc)
    else (np, mt, mb, mc)

/-- The default candidate used with `List.getD` in index-addressed
expressions and statements. -/
def cdummy : Candidate := { item := {}, norm := [] }

/-- The two-stage anchor search of `_build_md_first_content_list` lines
432-438: a window of 350 from `max(0, cp-30)`, then a window of 1000 from
`max(0, cp-50)`. -/
def chooseAnchor (plain : Str) (candidates : List Candidate) (cand_ptr : ℕ)
    (is_heading : Bool) (last_matched_page_idx : ℤ) : Option ℕ :=
  match best_anchor_in_window plain candidates (cand_ptr - 30) 350 is_heading
      last_matched_page_idx with
  | some i => some i
  | none => best_anchor_in_window plain candidates (cand_ptr - 50) 1000 is_heading
      last_matched_page_idx

/-- The text branch of the block loop
(`_build_md_first_content_list` lines 423-516). -/
def processTextBlock (candidates : List Candidate) (st : AlignState) (md_index : ℕ)
    (block : Str) : AlignState :=
  match chooseAnchor (blockPlain block) candidates st.cand_ptr
      ((blockHeading block).map (·.1)).isSome st.last_matched_page_idx with
  | none =>
    let item : ContentItem :=
      { type_ := str "text", md_index := md_index, text? := some (blockPlain block),
        text_level := (blockHeading block).map (·.1) }
    { st with out := st.out ++ [item], new_blocks := st.new_blocks ++ [block] }
  | some ai =>
    let new_blocks' := st.new_blocks ++ [block]
    let text_level : Option ℕ := (blockHeading block).map (·.1)
    let plain : Str := blockPlain block
    let base : ContentItem :=
      { type_ := str "text", md_index := md_index, text? := some plain,
        text_level := text_level }
    let anchor := candidates.getD ai cdummy
    let merged_bbox0 := anchor.item.bbox
    let merged_text0 := anchor.norm
    let page_idx := anchor.item.page_idx
    let item1 :=
      match page_idx with
      | some p => { base with page_idx := some p }
      | none => base
    let last' := match page_idx with | some p => p | none => st.last_matched_page_idx
    let plain_norm := normalize_match_text plain
    let merged :=
      if plain_norm.length > merged_text0.length + 5 then
        absorbLoop candidates plain_norm page_idx ai
          (min candidates.length (ai + 20) - (ai + 1)) (ai + 1) merged_text0 merged_bbox0 0
      else (ai + 1, merged_text0, merged_bbox0, 0)
    let item2 :=
      match merged.2.2.1 with
      | some b => { item1 with bbox := some b }
      | none => item1
    let cand_ptr' := max st.cand_ptr (if merged.2.2.2 > 0 then merged.1 else ai + 1)
    { st with
      out := st.out ++ [item2]
      new_blocks := new_blocks'
      last_matched_page_idx := last'
      cand_ptr := cand_ptr' }

/-- The branch dispatch of the block loop
(`_build_md_first_content_list` lines 265-269). -/
def processBlock (candidates : List Candidate) (table_defs : List TableDef)
    (st : AlignState) (md_index : ℕ) (block : Str) : AlignState :=
  if is_markdown_table_block block || is_html_table_block block then
    processTableBlock candidates table_defs st md_index block
  else processTextBlock candidates st md_index block

/-- The block loop folded over all markdown blocks. -/
def alignBlocks (candidates : List Candidate) (table_defs : List TableDef) :
    AlignState → ℕ → List Str → AlignState
  | st, _, [] => st
  | st, idx, b :: bs =>
    alignBlocks candidates table_defs (processBlock candidates table_defs st idx b) (idx + 1) bs

/-- All intermediate states of the block loop, the initial state first. -/
def alignStates (candidates : List Candidate) (table_defs : List TableDef) :
    AlignState → ℕ → List Str → List AlignState
  | st, _, [] => [st]
  | st, idx, b :: bs =>
    st :: alignStates candidates table_defs (processBlock candidates table_defs st idx b)
      (idx + 1) bs

/-- Python `"\n\n".join(blocks)`. -/
def joinBlocks : List Str → Str
  | [] => []
  | [b] => b
  | b :: bs => b ++ '\n' :: '\n' :: joinBlocks bs

/-- Embedding of `MinerUParser._build_md_first_content_list`
(`fullParse_mineru.py` lines 167-518): returns the assembled content list
and the re-joined markdown. -/
def build_md_first_content_list (md_text : Str) (raw_content_list : List RawItem)
    (content_tables : List (Str × EnrichedTable)) : List ContentItem × Str :=
  let blocks := split_markdown_blocks md_text
  let prepared := prepareCandidatesTables raw_content_list
  let candidates := stableSort (fun x y => keyLt (candKey x) (candKey y)) prepared.1
  let table_defs := buildTableDefs content_tables prepared.2
  let st := alignBlocks candidates table_defs { content_tables := content_tables } 0 blocks
  (st.out, joinBlocks st.new_blocks)

/-- The state trace of a run of `_build_md_first_content_list`, for the
invariant claims about the page floor. -/
def buildTrace (md_text : Str) (raw_content_list : List RawItem)
    (content_tables : List (Str × EnrichedTable)) : List AlignState :=
  let blocks := split_markdown_blocks md_text
  let prepared := prepareCandidatesTables raw_content_list
  let candidates := stableSort (fun x y => keyLt (candKey x) (candKey y)) prepared.1
  let table_defs := buildTableDefs content_tables prepared.2
  alignStates candidates table_defs { content_tables := content_tables } 0 blocks

/-- Names of the methods defined on the class `MinerUParser`
(`src/backend/parsers/fullParse_mineru.py`). -/
def mineruParserMethods : List String :=
  ["__init__", "name", "_is_toc_entry", "_best_anchor_in_window",
   "_calculate_text_similarity", "_build_md_first_content_list",
   "_calculate_iou", "parse"]

/-- Names of the methods defined on the base class `BaseParser`
(`src/backend/parsers/base.py`). -/
def baseParserMethods : List String :=
  ["parse", "name", "_split_markdown_blocks", "_is_markdown_table_block",
   "_is_html_table_block", "_strip_markdown_text"]

/-- Python attribute resolution on a `MinerUParser` instance: the method
resolves when either class of the hierarchy defines it. -/
def mineruResolves (attr : String) : Bool :=
  attr ∈ mineruParserMethods || attr ∈ baseParserMethods

/-- The runtime errors of the embedded paths: a failed attribute lookup,
and arithmetic or an order comparison on `None`. -/
inductive PyError where
  | attributeError
  | typeError
  deriving DecidableEq, Repr

/-- Runtime behaviour of `_calculate_text_similarity` lines 116-129: the
empty-input guards return before any method lookup, after which the body
calls `self._normalize_match_text`, which raises `AttributeError` when the
method is not defined on the class hierarchy. -/
def calculate_text_similarity_run (text1 text2 : Str) : Except PyError ℚ :=
  if text1 = [] ∨ text2 = [] then .ok 0
  else if mineruResolves "_normalize_match_text" then
    .ok (calculate_text_similarity text1 text2)
  else .error .attributeError

/-- Runtime behaviour of `_best_anchor_in_window` lines 55-65: after the
empty-target guard, line 63 calls `self._normalize_match_text` before any
candidate is examined. -/
def best_anchor_in_window_run (target_text : Str) (candidates : List Candidate)
    (start_idx window_size : ℕ) (is_heading : Bool) (min_page_idx : ℤ) :
    Except PyError (Option ℕ) :=
  if target_text = [] then .ok none
  else if mineruResolves "_normalize_match_text" then
    .ok (best_anchor_in_window target_text candidates start_idx window_size
      is_heading min_page_idx)
  else .error .attributeError

/-- Runtime behaviour of the candidate-preparation loop of
`_build_md_first_content_list` line 189, which calls
`self._normalize_match_text` on the first non-empty text item. -/
def prepare_candidates_run (raw : List RawItem) : Except PyError (List Candidate × List RawItem) :=
  if raw.any (fun it =>
      decide (it.type? ≠ some (str "discarded")) &&
        decide (it.type? ≠ some (str "table")) &&
        (match it.text? with
         | some txt => decide (pyStrip txt ≠ [])
         | none => false)) then
    if mineruResolves "_normalize_match_text" then .ok (prepareCandidatesTables raw)
    else .error .attributeError
  else .ok (prepareCandidatesTables raw)

/-- The `TypeError` of line 295: the windowed table search visits every
unused definition in `[max(0, table_ptr-1), min(N, table_ptr+5))` and
computes `abs(table_page - current_cand_page)` on each, which raises when
the definition's always-present `page_idx` key holds `None`. -/
def tableWindowRaises (table_defs : List TableDef) (used : List ℕ) (table_ptr : ℕ) : Bool :=
  let search_start := table_ptr - 1
  let search_end := min table_defs.length (table_ptr + 5)
  (List.range' search_start (search_end - search_start)).any fun i =>
    !(decide (i ∈ used)) && (table_defs.getD i { id := [] }).page_idx.isNone

/-- The `TypeError` of lines 314/317: the widened fallback search visits
every unused definition and compares or subtracts its page, raising on a
`None` page (at line 314 when the floor is positive, at line 317
otherwise). -/
def tableFallbackRaises (table_defs : List TableDef) (used : List ℕ) : Bool :=
  (List.range table_defs.length).any fun i =>
    !(decide (i ∈ used)) && (table_defs.getD i { id := [] }).page_idx.isNone

/-- The `TypeError` of line 330: the last-resort scan stops at the first
unused definition whose page is `None` (raising at
`t_page >= last_matched_page_idx`) or at least the floor (matching). -/
def tableLastResortRaises (table_defs : List TableDef) (used : List ℕ)
    (last_matched_page_idx : ℤ) : Bool :=
  match (List.range table_defs.length).find? (fun i =>
      ¬ (i ∈ used) ∧
        ((table_defs.getD i { id := [] }).page_idx.isNone = true ∨
          (table_defs.getD i { id := [] }).page_idx.getD 0 ≥ last_matched_page_idx)) with
  | some i => (table_defs.getD i { id := [] }).page_idx.isNone
  | none => false

/-- The `TypeError` of line 361: with a page-less matched definition, the
continuation loop raises at `t.get("page_idx") + 1` as soon as it reaches
any unused later definition. -/
def contRaises (table_defs : List TableDef) (used : List ℕ) (idx : ℕ) : Bool :=
  (table_defs.getD idx { id := [] }).page_idx.isNone &&
    ((List.range table_defs.length).any fun j =>
      decide (idx + 1 ≤ j) && !(decide (j ∈ used)))

/-- Whether processing a table block from state `st` raises `TypeError`,
checking the four sites in the source's evaluation order: the windowed
search, the fallback search (entered only below score 0.2), the last
resort (entered only with no match yet), and the continuation loop of the
matched definition. -/
def tableBlockRaises (block : Str) (candidates : List Candidate)
    (table_defs : List TableDef) (st : AlignState) : Bool :=
  let ccp := currentCandPage candidates st.cand_ptr
  let used := st.used_table_indices
  let search_start := st.table_ptr - 1
  let search_end := min table_defs.length (st.table_ptr + 5)
  let best0 := (List.range' search_start (search_end - search_start)).foldl
    (tableWindowStep block table_defs used ccp) (none, 0)
  let best1 :=
    if best0.2 < Rat.divInt 1 5 then
      (List.range table_defs.length).foldl
        (tableFallbackStep block table_defs used ccp st.last_matched_page_idx) best0
    else best0
  tableWindowRaises table_defs used st.table_ptr ||
    (decide (best0.2 < Rat.divInt 1 5) && tableFallbackRaises table_defs used) ||
    (best1.1.isNone && tableLastResortRaises table_defs used st.last_matched_page_idx) ||
    (match chooseTableIdx block table_defs used ccp st.last_matched_page_idx st.table_ptr with
     | some idx => contRaises table_defs used idx
     | none => false)

/-- The `TypeError` of line 467 inside the greedy forward-merge loop: the
loop is replayed with the same state as `absorbLoop`, and the page test
raises when the anchor's page is `None` and the scanned candidate carries
a page (the first `!=` is then true and `page_idx + 1` is evaluated). -/
def absorbRaisesLoop (candidates : List Candidate) (plain_norm : Str) (page_idx : Option ℤ)
    (ai : ℕ) : ℕ → ℕ → Str → Bool
  | 0, _, _ => false
  | fuel + 1, np, mt =>
    if h : np < candidates.length ∧ np < ai + 20 then
      let cand := candidates.get ⟨np, h.1⟩
      let cand_page := cand.item.page_idx
      let raisePage : Bool := if cand_page = page_idx then false else page_idx.isNone
      let breakPage : Bool :=
        if cand_page = page_idx then false
        else
          match page_idx with
          | some p => ¬ (cand_page = some (p + 1))
          | none => true
      if raisePage then true
      else if breakPage then false
      else
        let cand_text := cand.norm
        if cand_text = [] then
          absorbRaisesLoop candidates plain_norm page_idx ai fuel (np + 1) mt
        else
          let combined := mt ++ cand_text
          let sim_curr := calculate_text_similarity plain_norm mt
          let sim_new := calculate_text_similarity plain_norm combined
          let is_substr := isSubstring combined plain_norm
          if sim_new ≥ sim_curr ∨ is_substr = true ∨ sim_new > Rat.divInt 7 10 then
            absorbRaisesLoop candidates plain_norm page_idx ai fuel (np + 1) combined
          else false
    else false

/-- Whether processing a prose/heading block from state `st` raises
`TypeError`: only the absorb loop of a matched page-less anchor can, and
only when it is entered at all. -/
def textBlockRaises (block : Str) (candidates : List Candidate) (st : AlignState) : Bool :=
  match chooseAnchor (blockPlain block) candidates st.cand_ptr
      ((blockHeading block).map (·.1)).isSome st.last_matched_page_idx with
  | none => false
  | some ai =>
    let anchor := candidates.getD ai cdummy
    let merged_text0 := anchor.norm
    let page_idx := anchor.item.page_idx
    let plain_norm := normalize_match_text (blockPlain block)
    if plain_norm.length > merged_text0.length + 5 then
      absorbRaisesLoop candidates plain_norm page_idx ai
        (min candidates.length (ai + 20) - (ai + 1)) (ai + 1) merged_text0
    else false

/-- Whether processing one block from state `st` raises `TypeError`. -/
def blockRaises (candidates : List Candidate) (table_defs : List TableDef)
    (st : AlignState) (block : Str) : Bool :=
  if is_markdown_table_block block || is_html_table_block block then
    tableBlockRaises block candidates table_defs st
  else textBlockRaises block candidates st

/-- The block loop with the `TypeError` sites of lines 295, 314/317, 330,
361 and 467 modelled: each block either raises or advances the state
exactly as the total `processBlock` does. -/
def alignBlocksRun (candidates : List Candidate) (table_defs : List TableDef) :
    AlignState → ℕ → List Str → Except PyError AlignState
  | st, _, [] => .ok st
  | st, idx, b :: bs =>
    if blockRaises candidates table_defs st b then .error .typeError
    else alignBlocksRun candidates table_defs
      (processBlock candidates table_defs st idx b) (idx + 1) bs

/-- Runtime behaviour of `_build_md_first_content_list` under the
spec-modelled normalizer: the result of the block loop with the
`TypeError` sites modelled, so a run either raises or returns the content
list that `build_md_first_content_list` computes. -/
def build_md_first_content_list_run (md_text : Str) (raw_content_list : List RawItem)
    (content_tables : List (Str × EnrichedTable)) :
    Except PyError (List ContentItem × Str) :=
  (alignBlocksRun
      (stableSort (fun x y => keyLt (candKey x) (candKey y))
        (prepareCandidatesTables raw_content_list).1)
      (buildTableDefs content_tables (prepareCandidatesTables raw_content_list).2)
      { content_tables := content_tables } 0
      (split_markdown_blocks md_text)).map
    (fun st => (st.out, joinBlocks st.new_blocks))

/-- Addition on `ℚ` through `Rat.divInt`, kernel-computable; `qadd_eq`
identifies it with ordinary addition. -/
def qadd (a b : ℚ) : ℚ := Rat.divInt (a.num * b.den + b.num * a.den) ((a.den : ℤ) * b.den)

theorem qadd_eq (a b : ℚ) : qadd a b = a + b := by
  unfold qadd
  have hd1 : (a.den : ℤ) ≠ 0 := by exact_mod_cast a.den_ne_zero
  have hd2 : (b.den : ℤ) ≠ 0 := by exact_mod_cast b.den_ne_zero
  rw [← Rat.divInt_add_divInt _ _ hd1 hd2, Rat.num_divInt_den, Rat.num_divInt_den]

/-- Distinct overlapping windows of `k` characters. -/
def specWindows (k : ℕ) (s : Str) : List Str :=
  ((List.range (s.length - k + 1)).map (fun i => (s.drop i).take k)).dedup

/-- CJK-dominance of a normalized string, for the spec's script-sensitive
shingling (a strict majority of CJK ideographs). -/
def cjkDominant (s : Str) : Bool :=
  s.length < 2 * (s.filter isCJKChar).length

/-- Shingles exactly as §4.1 of the spec words them: 2-character windows
for CJK-dominant text (1-character when the normalized length is 1),
3-character windows otherwise (the whole string when the length is at
most 3). -/
def specShingles (s : Str) : List Str :=
  if cjkDominant s then
    if s.length = 1 then specWindows 1 s else specWindows 2 s
  else
    if s.length ≤ 3 then [s] else specWindows 3 s

/-- Similarity as §4.1 of the spec describes it for non-equal non-empty
normalized inputs: `jaccard(shinglesA, shinglesB) * (0.5 + 0.5 *
lengthRatio)`.  This is the spec-side definition used to compare the
specified formula against the implemented one. -/
def spec_similarity (a b : Str) : ℚ :=
  let t1 := normalize_match_text a
  let t2 := normalize_match_text b
  if t1 = [] ∨ t2 = [] then 0
  else if t1 = t2 then Rat.divInt 6 5
  else
    let sh1 := specShingles t1
    let sh2 := specShingles t2
    let jaccard := qdiv ((sh1.filter (· ∈ sh2)).length : ℚ) (((sh1 ++ sh2).dedup).length : ℚ)
    let lengthRatio := qdiv (min t1.length t2.length : ℚ) (max t1.length t2.length : ℚ)
    qmul jaccard (qadd (Rat.divInt 1 2) (qmul (Rat.divInt 1 2) lengthRatio))

/-- The implemented similarity of `_calculate_text_similarity`, restated
as one closed-form maximum of three terms (character-set Jaccard times
length ratio times substring bonus; the 2-gram term for long strings; the
0.7 floor for short substrings). -/
def code_similarity_closed (a b : Str) : ℚ :=
  let t1 := normalize_match_text a
  let t2 := normalize_match_text b
  let chunkTerm : ℚ :=
    if (t1.length > 10 ∨ t2.length > 10) ∧ chunks2 t1 ≠ [] ∧ chunks2 t2 ≠ [] then
      simChunkTerm t1 t2
    else 0
  let shortTerm : ℚ :=
    if (t1.length ≤ 4 ∨ t2.length ≤ 4) ∧ (isSubstring t1 t2 || isSubstring t2 t1) then
      Rat.divInt 7 10
    else 0
  max (max (simScore0 t1 t2) chunkTerm) shortTerm

/-- Fallback item used with `List.getD` in index-addressed statements. -/
def dummyItem : ContentItem := { type_ := [], md_index := 0 }

section StructureLemmas

theorem processTableBlock_out (candidates : List Candidate) (table_defs : List TableDef)
    (st : AlignState) (md_index : ℕ) (block : Str) :
    ∃ item : ContentItem,
      (processTableBlock candidates table_defs st md_index block).out = st.out ++ [item] ∧
        item.md_index = md_index := by
  unfold processTableBlock
  split
  all_goals exact ⟨_, rfl, rfl⟩

theorem processTextBlock_out (candidates : List Candidate) (st : AlignState)
    (md_index : ℕ) (block : Str) :
    ∃ item : ContentItem,
      (processTextBlock candidates st md_index block).out = st.out ++ [item] ∧
        item.md_index = md_index := by
  simp only [processTextBlock]
  split
  · exact ⟨_, rfl, rfl⟩
  · refine ⟨_, rfl, ?_⟩
    split <;> split <;> rfl

theorem processBlock_out (candidates : List Candidate) (table_defs : List TableDef)
    (st : AlignState) (md_index : ℕ) (block : Str) :
    ∃ item : ContentItem,
      (processBlock candidates table_defs st md_index block).out = st.out ++ [item] ∧
        item.md_index = md_index := by
  unfold processBlock
  split
  · exact processTableBlock_out candidates table_defs st md_index block
  · exact processTextBlock_out candidates st md_index block

theorem alignBlocks_out (candidates : List Candidate) (table_defs : List TableDef) :
    ∀ (bs : List Str) (st : AlignState) (k : ℕ),
      ∃ items : List ContentItem,
        (alignBlocks candidates table_defs st k bs).out = st.out ++ items ∧
          items.length = bs.length ∧
          ∀ j, j < items.length → (items.getD j dummyItem).md_index = k + j := by
  intro bs
  induction bs with
  | nil =>
    intro st k
    refine ⟨[], by simp [alignBlocks], by simp, ?_⟩
    intro j hj
    simp at hj
  | cons b bs ih =>
    intro st k
    obtain ⟨item, hout, hidx⟩ := processBlock_out candidates table_defs st k b
    obtain ⟨items, hout', hlen, hmd⟩ :=
      ih (processBlock candidates table_defs st k b) (k + 1)
    refine ⟨item :: items, ?_, by simp [hlen], ?_⟩
    · simp only [alignBlocks, hout', hout, List.append_assoc, List.singleton_append]
    · intro j hj
      cases j with
      | zero => simpa using hidx
      | succ j =>
        have h' : j < items.length := by simpa using hj
        have hstep := hmd j h'
        have hcons : (item :: items).getD (j + 1) dummyItem = items.getD j dummyItem := rfl
        rw [hcons, hstep]
        omega

theorem alignBlocksRun_ok (candidates : List Candidate) (table_defs : List TableDef) :
    ∀ (bs : List Str) (st st' : AlignState) (k : ℕ),
      alignBlocksRun candidates table_defs st k bs = .ok st' →
      st' = alignBlocks candidates table_defs st k bs := by
  intro bs
  induction bs with
  | nil =>
    intro st st' k h
    exact (Except.ok.inj h).symm
  | cons b bs ih =>
    intro st st' k h
    unfold alignBlocksRun at h
    split at h
    · cases h
    · exact ih _ _ _ h

end StructureLemmas

/-- A raw table definition that carries no page index. -/
def c1raw : List RawItem :=
  [{ type? := some (str "table"), table_body? := some (str "x") }]

/-- C1 counterexample: a one-block document with a page-less table
definition — the windowed table search computes `abs(None - int)` at line
295 and raises `TypeError`, so no content list is built at all and the
per-block coverage claim fails on this input. -/
theorem C1_typeerror_counterexample :
    (split_markdown_blocks (str "<table>x</table>")).length = 1 ∧
    build_md_first_content_list_run (str "<table>x</table>") c1raw [] =
      .error .typeError := by
  refine ⟨by decide, by rfl⟩

/-- C1 amended: whenever a run of `_build_md_first_content_list` completes
without a `TypeError` — page arithmetic on `None` at lines 295, 314/317,
330, 361 or 467 can abort it — the content list has exactly one
`ContentItem` per markdown block, in block order, with `md_index` equal to
the block's 0-based index: no block dropped, none duplicated. -/
theorem C1_amended_one_item_per_block (md_text : Str) (raw : List RawItem)
    (content_tables : List (Str × EnrichedTable)) (res : List ContentItem × Str)
    (h : build_md_first_content_list_run md_text raw content_tables = .ok res) :
    res.1.length = (split_markdown_blocks md_text).length ∧
    ∀ i, i < res.1.length → (res.1.getD i dummyItem).md_index = i := by
  have hres : res = build_md_first_content_list md_text raw content_tables := by
    unfold build_md_first_content_list_run at h
    cases hrun : alignBlocksRun
        (stableSort (fun x y => keyLt (candKey x) (candKey y))
          (prepareCandidatesTables raw).1)
        (buildTableDefs content_tables (prepareCandidatesTables raw).2)
        { content_tables := content_tables } 0
        (split_markdown_blocks md_text) with
    | error e =>
      rw [hrun] at h
      cases h
    | ok st =>
      rw [hrun] at h
      have hst := alignBlocksRun_ok _ _ _ _ _ _ hrun
      obtain rfl := (Except.ok.inj h).symm
      rw [hst]
      rfl
  rw [hres]
  obtain ⟨items, hout, hlen, hmd⟩ :=
    alignBlocks_out
      (stableSort (fun x y => keyLt (candKey x) (candKey y)) (prepareCandidatesTables raw).1)
      (buildTableDefs content_tables (prepareCandidatesTables raw).2)
      (split_markdown_blocks md_text) { content_tables := content_tables } 0
  have hfst : (build_md_first_content_list md_text raw content_tables).1 = items := by
    simpa [build_md_first_content_list] using hout
  rw [hfst]
  refine ⟨hlen, ?_⟩
  intro i h
  simpa using hmd i h

/-- C1 amended witness: a two-block document whose run completes (no
candidates, no table definitions), evaluated concretely. -/
theorem C1_amended_one_item_per_block_witness :
    (build_md_first_content_list (str "# Intro\n\nHello world.") [] []).1.length =
      (split_markdown_blocks (str "# Intro\n\nHello world.")).length ∧
    ∀ i, i < (build_md_first_content_list (str "# Intro\n\nHello world.") [] []).1.length →
      ((build_md_first_content_list (str "# Intro\n\nHello world.") [] []).1.getD i
        dummyItem).md_index = i :=
  C1_amended_one_item_per_block (str "# Intro\n\nHello world.") [] []
    (build_md_first_content_list (str "# Intro\n\nHello world.") [] []) (by rfl)

/-- C2: for every pair of non-empty string arguments,
`_calculate_text_similarity` raises `AttributeError` — and so does every
alignment path that scores a block against a candidate, including
candidate preparation — because `_normalize_match_text` is defined neither
on `MinerUParser` nor on `BaseParser`; only calls where one argument is
empty return 0.0 without error. -/
theorem C2_normalizer_missing_raises :
    (∀ t1 t2 : Str, t1 ≠ [] → t2 ≠ [] →
      calculate_text_similarity_run t1 t2 = .error .attributeError) ∧
    (∀ t1 t2 : Str, t1 = [] ∨ t2 = [] → calculate_text_similarity_run t1 t2 = .ok 0) ∧
    (∀ (target : Str) (cands : List Candidate) (s w : ℕ) (hd : Bool) (m : ℤ),
      target ≠ [] →
      best_anchor_in_window_run target cands s w hd m = .error .attributeError) ∧
    mineruResolves "_normalize_match_text" = false := by
  refine ⟨?_, ?_, ?_, by decide⟩
  · intro t1 t2 h1 h2
    unfold calculate_text_similarity_run
    rw [if_neg (by simp [h1, h2]), if_neg (by decide)]
  · intro t1 t2 h
    unfold calculate_text_similarity_run
    rw [if_pos h]
  · intro target cands s w hd m h
    unfold best_anchor_in_window_run
    rw [if_neg (by simp [h]), if_neg (by decide)]

/-- C2 witness: the error and the empty-side guard at concrete inputs. -/
theorem C2_normalizer_missing_raises_witness :
    calculate_text_similarity_run (str "abc") (str "abd") = .error .attributeError ∧
    calculate_text_similarity_run (str "abc") [] = .ok 0 ∧
    best_anchor_in_window_run (str "abc") [] 0 350 false 0 = .error .attributeError :=
  ⟨C2_normalizer_missing_raises.1 (str "abc") (str "abd") (by decide) (by decide),
   C2_normalizer_missing_raises.2.1 (str "abc") [] (Or.inr rfl),
   C2_normalizer_missing_raises.2.2.1 (str "abc") [] 0 350 false 0 (by decide)⟩

theorem processTextBlock_unmatched_eq (candidates : List Candidate) (st : AlignState)
    (md_index : ℕ) (block : Str)
    (h : chooseAnchor (blockPlain block) candidates st.cand_ptr
      ((blockHeading block).map (·.1)).isSome st.last_matched_page_idx = none) :
    processTextBlock candidates st md_index block =
      { st with
        out := st.out ++
          [{ type_ := str "text", md_index := md_index,
             text? := some (blockPlain block),
             text_level := (blockHeading block).map (·.1) }]
        new_blocks := st.new_blocks ++ [block] } := by
  unfold processTextBlock
  rw [h]

/-- C3: a prose/heading block that matches no candidate never fails the
conversion: its `ContentItem` is still appended, with `page_idx` and
`bbox` absent, and the block is not dropped.  (The model is a total
function: no exception path exists once `_normalize_match_text` is
supplied; the unmatched case is the `anchor_idx is None` branch.) -/
theorem C3_unmatched_block_emitted (candidates : List Candidate)
    (table_defs : List TableDef) (st : AlignState) (md_index : ℕ) (block : Str)
    (hnt : (is_markdown_table_block block || is_html_table_block block) = false)
    (h : chooseAnchor (blockPlain block) candidates st.cand_ptr
      ((blockHeading block).map (·.1)).isSome st.last_matched_page_idx = none) :
    (processBlock candidates table_defs st md_index block).out =
      st.out ++
        [{ type_ := str "text", md_index := md_index,
           text? := some (blockPlain block),
           text_level := (blockHeading block).map (·.1),
           page_idx := none, bbox := none }] := by
  unfold processBlock
  rw [hnt]
  simp only [Bool.false_eq_true, if_false]
  rw [processTextBlock_unmatched_eq candidates st md_index block h]

/-- C3 witness: an unmatched prose block on an empty candidate list is
emitted without placement. -/
theorem C3_unmatched_block_emitted_witness :
    ((is_markdown_table_block (str "qqqq") || is_html_table_block (str "qqqq")) = false) ∧
    (processBlock [] [] {} 0 (str "qqqq")).out =
      [] ++
        [{ type_ := str "text", md_index := 0,
           text? := some (blockPlain (str "qqqq")),
           text_level := (blockHeading (str "qqqq")).map (·.1),
           page_idx := none, bbox := none }] :=
  ⟨by decide, C3_unmatched_block_emitted [] [] {} 0 (str "qqqq") (by decide) (by decide)⟩

/-- A candidate list whose single entry shares no vocabulary with the
blocks it is matched against. -/
def c5cands : List RawItem :=
  [{ type? := some (str "text"), text? := some (str "totally different words"),
     page_idx := some 3, bbox := some (0, 0, 10, 10) }]

/-- C5 counterexample: a heading block whose best score is below the
threshold while the candidate at `cp` exists; the claim says that
candidate is consumed as a low-confidence match (placement assigned, `cp`
advanced), but the code leaves the block unplaced and `cp` unchanged. -/
theorem C5_no_fallback_counterexample :
    (prepareCandidatesTables c5cands).1.length = 1 ∧
    ((buildTrace (str "# zzzz") c5cands []).map (·.cand_ptr) = [0, 0]) ∧
    (build_md_first_content_list (str "# zzzz") c5cands []).1 =
      [{ type_ := str "text", md_index := 0, text? := some (str "zzzz"),
         text_level := some 1 }] := by
  refine ⟨by decide, by decide, by decide⟩

/-- C5 amended: when no candidate in either window clears the acceptance
threshold, the block is emitted with no placement and the candidate
pointer and page floor stay unchanged; there is no fallback consumption of
the candidate at `cp`. -/
theorem C5_amended_no_fallback (candidates : List Candidate)
    (table_defs : List TableDef) (st : AlignState) (md_index : ℕ) (block : Str)
    (hnt : (is_markdown_table_block block || is_html_table_block block) = false)
    (h : chooseAnchor (blockPlain block) candidates st.cand_ptr
      ((blockHeading block).map (·.1)).isSome st.last_matched_page_idx = none) :
    (processBlock candidates table_defs st md_index block).cand_ptr = st.cand_ptr ∧
    (processBlock candidates table_defs st md_index block).last_matched_page_idx =
      st.last_matched_page_idx ∧
    ((processBlock candidates table_defs st md_index block).out.getLast?.map (·.page_idx)) =
      some none := by
  have heq : processBlock candidates table_defs st md_index block =
      { st with
        out := st.out ++
          [{ type_ := str "text", md_index := md_index,
             text? := some (blockPlain block),
             text_level := (blockHeading block).map (·.1) }]
        new_blocks := st.new_blocks ++ [block] } := by
    unfold processBlock
    rw [hnt]
    simp only [Bool.false_eq_true, if_false]
    exact processTextBlock_unmatched_eq candidates st md_index block h
  rw [heq]
  refine ⟨rfl, rfl, ?_⟩
  simp [List.getLast?_concat]

/-- C5 amended witness: the unchanged pointers at a concrete unmatched
heading block. -/
theorem C5_amended_no_fallback_witness :
    (processBlock (stableSort (fun x y => keyLt (candKey x) (candKey y))
        (prepareCandidatesTables c5cands).1) [] {} 0 (str "# zzzz")).cand_ptr = 0 ∧
    (processBlock (stableSort (fun x y => keyLt (candKey x) (candKey y))
        (prepareCandidatesTables c5cands).1) [] {} 0 (str "# zzzz")).last_matched_page_idx = 0 ∧
    ((processBlock (stableSort (fun x y => keyLt (candKey x) (candKey y))
        (prepareCandidatesTables c5cands).1) [] {} 0 (str "# zzzz")).out.getLast?.map
      (·.page_idx)) = some none :=
  C5_amended_no_fallback
    (stableSort (fun x y => keyLt (candKey x) (candKey y)) (prepareCandidatesTables c5cands).1)
    [] {} 0 (str "# zzzz") (by decide) (by decide)

theorem code_max_shape (s ct : ℚ) (hs : 0 ≤ s) (p q r : Prop)
    [Decidable p] [Decidable q] [Decidable r] :
    (if r then max (if p then (if q then max s ct else s) else s) (Rat.divInt 7 10)
     else (if p then (if q then max s ct else s) else s)) =
    max (max s (if p ∧ q then ct else 0)) (if r then Rat.divInt 7 10 else 0) := by
  have hz : max s (0 : ℚ) = s := max_eq_left hs
  by_cases hp : p <;> by_cases hq : q <;> by_cases hr : r <;>
    (simp only [hp, hq, hr, if_true, if_false, and_true, and_false, true_and, false_and,
      if_pos, if_neg, not_false_iff, hz]
     try rw [max_eq_left (le_max_of_le_left hs)])

/-- C6 counterexample: at `"abcd"` versus `"abce"` (both non-empty, with
distinct normalized forms) the spec's shingle formula yields 1/3 while the
implemented similarity yields 3/5, so the claimed equality fails. -/
theorem C6_formula_counterexample :
    normalize_match_text (str "abcd") ≠ [] ∧
    normalize_match_text (str "abce") ≠ [] ∧
    normalize_match_text (str "abcd") ≠ normalize_match_text (str "abce") ∧
    spec_similarity (str "abcd") (str "abce") = Rat.divInt 1 3 ∧
    calculate_text_similarity (str "abcd") (str "abce") = Rat.divInt 3 5 ∧
    calculate_text_similarity (str "abcd") (str "abce") ≠
      spec_similarity (str "abcd") (str "abce") := by
  decide

/-- C6 amended: for non-empty inputs with distinct non-empty normalized
forms, the implemented similarity is the maximum of three terms:
character-set Jaccard times length ratio times a 1.2 substring bonus; the
2-gram Jaccard times 1.1 when either normalized length exceeds 10; and a
0.7 floor when either normalized length is at most 4 and one normalized
string contains the other. -/
theorem simScore0_nonneg (t1 t2 : Str) : (0 : ℚ) ≤ simScore0 t1 t2 := by
  unfold simScore0
  rw [qmul_eq, qmul_eq, qdiv_eq, qdiv_eq]
  have hb : (0 : ℚ) ≤
      (if isSubstring t1 t2 || isSubstring t2 t1 then Rat.divInt 6 5 else 1) := by
    split
    · decide
    · decide
  have hj : (0 : ℚ) ≤
      ((interCard t1.dedup t2.dedup : ℕ) : ℚ) / (((t1.dedup ++ t2.dedup).dedup.length : ℕ) : ℚ) := by
    positivity
  have hr : (0 : ℚ) ≤
      ((t1.length : ℚ) ⊓ (t2.length : ℚ)) / ((t1.length : ℚ) ⊔ (t2.length : ℚ)) :=
    div_nonneg (le_min (Nat.cast_nonneg _) (Nat.cast_nonneg _))
      (le_trans (Nat.cast_nonneg _) le_sup_left)
  exact mul_nonneg (mul_nonneg hj hr) hb

theorem C6_amended_closed_form (a b : Str) (ha : a ≠ []) (hb : b ≠ [])
    (h1 : normalize_match_text a ≠ []) (h2 : normalize_match_text b ≠ [])
    (hne : normalize_match_text a ≠ normalize_match_text b) :
    calculate_text_similarity a b = code_similarity_closed a b := by
  have hunion :
      ¬ (((normalize_match_text a).dedup ++ (normalize_match_text b).dedup).dedup.length = 0) := by
    simp only [List.length_eq_zero, List.dedup_eq_nil, List.append_eq_nil]
    rintro ⟨e1, _⟩
    exact h1 e1
  simp only [calculate_text_similarity, code_similarity_closed]
  rw [if_neg (by simp [ha, hb]), if_neg (by simp [h1, h2]), if_neg hne, if_neg hunion]
  exact code_max_shape _ _ (simScore0_nonneg _ _) _ _ _

/-- C6 amended witness: the closed form coincides with the implementation
at a concrete non-trivial pair. -/
theorem C6_amended_closed_form_witness :
    calculate_text_similarity (str "abcd") (str "abce") =
      code_similarity_closed (str "abcd") (str "abce") :=
  C6_amended_closed_form (str "abcd") (str "abce") (by decide) (by decide) (by decide)
    (by decide) (by decide)

/-- C7 counterexample: both normalized forms have length at least 8 and
one contains the other, yet the score is 77/250, far below the claimed
0.9 floor. -/
theorem C7_no_high_floor_counterexample :
    (normalize_match_text (str "abcdefgh")).length ≥ 8 ∧
    (normalize_match_text (str "abcdefghijklmnopqrstuvwxyz")).length ≥ 8 ∧
    isSubstring (normalize_match_text (str "abcdefgh"))
      (normalize_match_text (str "abcdefghijklmnopqrstuvwxyz")) = true ∧
    calculate_text_similarity (str "abcdefgh") (str "abcdefghijklmnopqrstuvwxyz") =
      Rat.divInt 77 250 ∧
    calculate_text_similarity (str "abcdefgh") (str "abcdefghijklmnopqrstuvwxyz") <
      Rat.divInt 9 10 := by
  decide

/-- C7 amended: when both normalized forms are non-empty, either has
length at most 4, and one contains the other, the score is at least 0.7;
there is no corresponding 0.9 floor for long substrings (containment only
contributes a multiplicative 1.2 bonus there). -/
theorem C7_amended_short_substring_floor (a b : Str)
    (h1 : normalize_match_text a ≠ []) (h2 : normalize_match_text b ≠ [])
    (hlen : (normalize_match_text a).length ≤ 4 ∨ (normalize_match_text b).length ≤ 4)
    (hsub : isSubstring (normalize_match_text a) (normalize_match_text b) = true ∨
      isSubstring (normalize_match_text b) (normalize_match_text a) = true) :
    Rat.divInt 7 10 ≤ calculate_text_similarity a b := by
  have ha : a ≠ [] := by
    intro e
    exact h1 (by simp [e, normalize_match_text])
  have hb : b ≠ [] := by
    intro e
    exact h2 (by simp [e, normalize_match_text])
  have hunion :
      ¬ (((normalize_match_text a).dedup ++ (normalize_match_text b).dedup).dedup.length = 0) := by
    simp only [List.length_eq_zero, List.dedup_eq_nil, List.append_eq_nil]
    rintro ⟨e1, _⟩
    exact h1 e1
  have hsub' : (isSubstring (normalize_match_text a) (normalize_match_text b) ||
      isSubstring (normalize_match_text b) (normalize_match_text a)) = true := by
    rcases hsub with h | h <;> simp [h]
  simp only [calculate_text_similarity]
  rw [if_neg (by simp [ha, hb]), if_neg (by simp [h1, h2])]
  by_cases heq : normalize_match_text a = normalize_match_text b
  · rw [if_pos heq]
    decide
  · rw [if_neg heq, if_neg hunion, if_pos ⟨hlen, hsub'⟩]
    exact le_max_right _ _

/-- C7 amended witness: the floor at the concrete short pair
`"ab"`/`"abX"`. -/
theorem C7_amended_short_substring_floor_witness :
    Rat.divInt 7 10 ≤ calculate_text_similarity (str "ab") (str "abX") :=
  C7_amended_short_substring_floor (str "ab") (str "abX") (by decide) (by decide)
    (by decide) (Or.inl (by decide))

section AnchorLemmas

theorem stableInsert_mem {α : Type} (lt : α → α → Bool) (a x : α) (l : List α) :
    x ∈ stableInsert lt a l ↔ x = a ∨ x ∈ l := by
  induction l with
  | nil => simp [stableInsert]
  | cons b bs ih =>
    unfold stableInsert
    split
    · simp only [List.mem_cons, ih]
      tauto
    · simp only [List.mem_cons]

theorem stableSort_mem {α : Type} (lt : α → α → Bool) (l : List α) (x : α) :
    x ∈ stableSort lt l ↔ x ∈ l := by
  induction l with
  | nil => simp [stableSort]
  | cons a as ih =>
    simp [stableSort, stableInsert_mem, ih]

/-- The similarity computed for window position `i` inside
`_best_anchor_in_window`. -/
def anchorScore (tn : Str) (cands : List Candidate) (i : ℕ) : ℚ :=
  calculate_text_similarity tn
    (normalize_match_text ((cands.getD i cdummy).item.text?.getD []))

/-- The page-floor guard of `_best_anchor_in_window` lines 83-86 at window
position `i` (true when the candidate is not skipped). -/
def anchorPageOk (cands : List Candidate) (minp : ℤ) (i : ℕ) : Prop :=
  ¬ (minp ≥ 0 ∧ (cands.getD i cdummy).item.page_idx.getD (-1) ≥ 0 ∧
     (cands.getD i cdummy).item.page_idx.getD (-1) < minp)

/-- Both the recorded best index and every recorded TOC index satisfy
`P`. -/
def accGood (P : ℕ → Prop) (acc : AnchorAcc) : Prop :=
  (∀ j, acc.best_idx = some j → P j) ∧ ∀ e ∈ acc.toc_matches, P e.1

theorem anchorStep_good (tn : Str) (cands : List Candidate) (heading : Bool) (minp : ℤ)
    (P : ℕ → Prop) (i : ℕ) (acc : AnchorAcc) (hacc : accGood P acc)
    (hP : i < cands.length → Rat.divInt 3 5 < anchorScore tn cands i →
      anchorPageOk cands minp i → P i) :
    accGood P (anchorStep tn cands heading minp i acc) := by
  unfold anchorStep
  cases hget : cands[i]? with
  | none => exact hacc
  | some cand =>
    have hlen : i < cands.length := by
      by_contra hc
      rw [List.getElem?_eq_none (by omega)] at hget
      exact Option.noConfusion hget
    have hgd : cands.getD i cdummy = cand := by
      rw [List.getD_eq_getElem?_getD, hget]
      rfl
    dsimp only
    split
    · exact hacc
    · split
      · exact hacc
      · rename_i hnorm hpage
        have hpok : anchorPageOk cands minp i := by
          unfold anchorPageOk

          rw [hgd]
          exact hpage
        split
        · rename_i hscore
          have hsc : Rat.divInt 3 5 < anchorScore tn cands i := by
            unfold anchorScore
            rw [hgd]
            exact hscore
          have hPi : P i := hP hlen hsc hpok
          split
          · refine ⟨hacc.1, ?_⟩
            intro e he
            rcases List.mem_append.mp he with h | h
            · exact hacc.2 e h
            · have : e = (i, calculate_text_similarity tn
                  (normalize_match_text (cand.item.text?.getD []))) := by
                simpa using h
              rw [this]
              exact hPi
          · split
            · split
              · exact ⟨fun j hj => by
                  simp only [Option.some_inj] at hj
                  rw [← hj]
                  exact hPi, hacc.2⟩
              · exact ⟨fun j hj => hacc.1 j hj, hacc.2⟩
            · split
              · exact ⟨fun j hj => by
                  simp only [Option.some_inj] at hj
                  rw [← hj]
                  exact hPi, hacc.2⟩
              · exact hacc
        · exact hacc

theorem anchorLoop_good (tn : Str) (cands : List Candidate) (heading : Bool) (minp : ℤ)
    (P : ℕ → Prop) :
    ∀ (fuel i : ℕ) (acc : AnchorAcc), accGood P acc →
      (∀ k, i ≤ k → k < i + fuel → k < cands.length →
        Rat.divInt 3 5 < anchorScore tn cands k → anchorPageOk cands minp k → P k) →
      accGood P (anchorLoop tn cands heading minp fuel i acc) := by
  intro fuel
  induction fuel with
  | zero => intro i acc hacc _; exact hacc
  | succ fuel ih =>
    intro i acc hacc hk
    unfold anchorLoop
    split
    · exact hacc
    · refine ih (i + 1)
        (anchorStep tn cands heading minp i acc)
        (anchorStep_good tn cands heading minp P i acc hacc ?_) ?_
      · intro hl hs hp
        exact hk i (le_refl i) (by omega) hl hs hp
      · intro k h1 h2 h3 h4 h5
        exact hk k (by omega) (by omega) h3 h4 h5

theorem anchorFinish_good (P : ℕ → Prop) (acc : AnchorAcc) (hacc : accGood P acc)
    (j : ℕ) (h : anchorFinish acc = some j) : P j := by
  unfold anchorFinish at h
  cases hbi : acc.best_idx with
  | some jj =>
    rw [hbi] at h
    simp only [Option.some_inj] at h
    rw [← h]
    exact hacc.1 jj hbi
  | none =>
    rw [hbi] at h
    dsimp only at h
    cases hhd : (stableSort (fun a b => a.2 > b.2) acc.toc_matches).head? with
    | none =>
      rw [hhd] at h
      dsimp only at h
      exact Option.noConfusion h
    | some e =>
      rw [hhd] at h
      dsimp only at h
      have hmem : e ∈ stableSort (fun a b => a.2 > b.2) acc.toc_matches :=
        List.mem_of_mem_head? hhd
      have hPp := hacc.2 e ((stableSort_mem _ _ _).mp hmem)
      by_cases hq : e.2 > Rat.divInt 9 10
      · rw [if_pos hq] at h
        simp only [Option.some_inj] at h
        rw [← h]
        exact hPp
      · rw [if_neg hq] at h
        exact Option.noConfusion h

theorem best_anchor_props (target : Str) (cands : List Candidate)
    (start w : ℕ) (heading : Bool) (minp : ℤ) (j : ℕ)
    (h : best_anchor_in_window target cands start w heading minp = some j) :
    start ≤ j ∧ j < min cands.length (start + w) ∧ j < cands.length ∧
    Rat.divInt 3 5 < anchorScore (normalize_match_text target) cands j ∧
    anchorPageOk cands minp j := by
  unfold best_anchor_in_window at h
  by_cases h0 : target = []
  · rw [if_pos h0] at h
    exact Option.noConfusion h
  rw [if_neg h0] at h
  by_cases h1 : normalize_match_text target = []
  · rw [if_pos h1] at h
    exact Option.noConfusion h
  rw [if_neg h1] at h
  set en := min cands.length (start + w) with hen
  set P : ℕ → Prop := fun k =>
    start ≤ k ∧ k < en ∧ k < cands.length ∧
      Rat.divInt 3 5 < anchorScore (normalize_match_text target) cands k ∧
      anchorPageOk cands minp k with hP
  have hloop : accGood P (anchorLoop (normalize_match_text target) cands heading minp
      (en - start) start {}) := by
    refine anchorLoop_good (normalize_match_text target) cands heading minp P
      (en - start) start {} ⟨?_, ?_⟩ ?_
    · intro j hj
      exact Option.noConfusion hj
    · intro e he
      exact absurd he (List.not_mem_nil e)
    · intro k hk1 hk2 hk3 hk4 hk5
      refine ⟨hk1, ?_, hk3, hk4, hk5⟩
      have hle : en ≤ cands.length := by
        rw [hen]
        exact min_le_left _ _
      omega
  exact anchorFinish_good P _ hloop j h

end AnchorLemmas

theorem chooseAnchor_props (plain : Str) (cands : List Candidate) (cp : ℕ)
    (heading : Bool) (minp : ℤ) (j : ℕ)
    (h : chooseAnchor plain cands cp heading minp = some j) :
    cp - 50 ≤ j ∧ j < min cands.length (cp - 50 + 1000) ∧ j < cands.length ∧
    Rat.divInt 3 5 < anchorScore (normalize_match_text plain) cands j ∧
    anchorPageOk cands minp j := by
  unfold chooseAnchor at h
  cases h1 : best_anchor_in_window plain cands (cp - 30) 350 heading minp with
  | some i =>
    rw [h1] at h
    simp only [Option.some_inj] at h
    obtain ⟨ha, hb, hc, hd, he⟩ := best_anchor_props plain cands (cp - 30) 350 heading minp i h1
    rw [← h]
    refine ⟨by omega, ?_, hc, hd, he⟩
    have hb' : i < cands.length ∧ i < cp - 30 + 350 := by
      constructor <;> omega
    omega
  | none =>
    rw [h1] at h
    dsimp only at h
    obtain ⟨ha, hb, hc, hd, he⟩ :=
      best_anchor_props plain cands (cp - 50) 1000 heading minp j h
    exact ⟨ha, hb, hc, hd, he⟩

/-- A candidate whose similarity to the block `"abcdefgh"` is 77/250,
between the spec's 0.22 acceptance threshold and the code's 0.6 one. -/
def c4cands : List RawItem :=
  [{ type? := some (str "text"), text? := some (str "abcdefghijklmnopqrstuvwxyz"),
     page_idx := some 0, bbox := some (0, 0, 10, 10) }]

/-- C4 counterexample: the only candidate scores 77/250 (at least the
claimed 0.22 threshold) and carries a resolvable page and bbox, yet the
block is left without placement: there is no 0.22 acceptance, no span
evaluation and no `[cp-5, cp+120)` window in the code. -/
theorem C4_window_counterexample :
    Rat.divInt 11 50 ≤ calculate_text_similarity (str "abcdefgh")
      (str "abcdefghijklmnopqrstuvwxyz") ∧
    calculate_text_similarity (str "abcdefgh") (str "abcdefghijklmnopqrstuvwxyz") =
      Rat.divInt 77 250 ∧
    (build_md_first_content_list (str "abcdefgh") c4cands []).1 =
      [{ type_ := str "text", md_index := 0, text? := some (str "abcdefgh") }] := by
  refine ⟨by decide, by decide, by decide⟩

/-- C4 amended: the matcher scores single candidates only (no spans, no
span-length penalty); the searched positions are
`[max(0, cp-30), max(0, cp-30)+350)` and, on failure,
`[max(0, cp-50), max(0, cp-50)+1000)`, both clipped to the candidate
count; a selected anchor always lies inside the wider window, scores
strictly above 0.6 (not 0.22) and respects the page floor. -/
theorem C4_amended_anchor_selection (plain : Str) (cands : List Candidate) (cp : ℕ)
    (heading : Bool) (minp : ℤ) (j : ℕ)
    (h : chooseAnchor plain cands cp heading minp = some j) :
    cp - 50 ≤ j ∧ j < min cands.length (cp - 50 + 1000) ∧ j < cands.length ∧
    Rat.divInt 3 5 < anchorScore (normalize_match_text plain) cands j ∧
    anchorPageOk cands minp j :=
  chooseAnchor_props plain cands cp heading minp j h

/-- C4 amended witness: the selection facts at a concrete matched
anchor. -/
theorem C4_amended_anchor_selection_witness :
    (0 : ℕ) - 50 ≤ 0 ∧ (0 : ℕ) < min
      (stableSort (fun x y => keyLt (candKey x) (candKey y))
        (prepareCandidatesTables c5cands).1).length ((0 : ℕ) - 50 + 1000) ∧
    (0 : ℕ) < (stableSort (fun x y => keyLt (candKey x) (candKey y))
      (prepareCandidatesTables c5cands).1).length ∧
    Rat.divInt 3 5 < anchorScore (normalize_match_text (str "totally different words"))
      (stableSort (fun x y => keyLt (candKey x) (candKey y))
        (prepareCandidatesTables c5cands).1) 0 ∧
    anchorPageOk (stableSort (fun x y => keyLt (candKey x) (candKey y))
      (prepareCandidatesTables c5cands).1) 0 0 :=
  C4_amended_anchor_selection (str "totally different words")
    (stableSort (fun x y => keyLt (candKey x) (candKey y)) (prepareCandidatesTables c5cands).1)
    0 false 0 0 (by decide)

/-- A single candidate on page 5, matched exactly by the heading block
`# fivepage`. -/
def c10cands : List RawItem :=
  [{ type? := some (str "text"), text? := some (str "fivepage"), page_idx := some 5,
     bbox := some (0, 0, 10, 10) }]

/-- A single enriched table on the earlier page 2, matched exactly by an
HTML table block. -/
def c10ct : List (Str × EnrichedTable) :=
  [(str "t2",
    { page_idx := some 2, bbox := some (0, 0, 10, 10),
      md := some (str "<table>zz</table>") })]

/-- C10 counterexample: in a run whose heading matches a page-5 candidate
and whose table block then matches a page-2 definition, the
last-matched-page floor goes 0, 5, 2 — the table branch resets the floor
to the matched table's earlier page. -/
theorem C10_floor_decrease_counterexample :
    ((buildTrace (str "# fivepage\n\n<table>zz</table>") c10cands c10ct).map
      (·.last_matched_page_idx)) = [0, 5, 2] ∧
    ¬ ((5 : ℤ) ≤ 2) := by
  refine ⟨by decide, by decide⟩

/-- C10 amended: a prose/heading block never lowers the floor, provided
the floor is non-negative and every candidate page, when present, is
non-negative: the anchor search skips candidates whose page is below the
floor, so any page written to the floor is at least the old floor.  (The
table branch does not have this property: it overwrites the floor with
the matched definition's page, as the counterexample shows.) -/
theorem C10_amended_prose_floor_monotone (candidates : List Candidate)
    (table_defs : List TableDef) (st : AlignState) (md_index : ℕ) (block : Str)
    (hnt : (is_markdown_table_block block || is_html_table_block block) = false)
    (hfloor : 0 ≤ st.last_matched_page_idx)
    (hpages : ∀ c ∈ candidates, ∀ p, c.item.page_idx = some p → 0 ≤ p) :
    st.last_matched_page_idx ≤
      (processBlock candidates table_defs st md_index block).last_matched_page_idx := by
  unfold processBlock
  rw [hnt]
  simp only [Bool.false_eq_true, if_false]
  unfold processTextBlock
  cases hca : chooseAnchor (blockPlain block) candidates st.cand_ptr
      ((blockHeading block).map (·.1)).isSome st.last_matched_page_idx with
  | none =>
    dsimp only
    exact le_refl _
  | some ai =>
    obtain ⟨_, _, hlen, _, hpok⟩ := chooseAnchor_props _ _ _ _ _ _ hca
    dsimp only
    cases hp : (candidates.getD ai cdummy).item.page_idx with
    | none =>
      exact le_refl _
    | some p =>
      show st.last_matched_page_idx ≤ p
      have hmem : candidates.getD ai cdummy ∈ candidates := by
        rw [List.getD_eq_getElem?_getD, List.getElem?_eq_getElem hlen]
        exact List.getElem_mem hlen
      have hp0 : 0 ≤ p := hpages _ hmem p hp
      unfold anchorPageOk at hpok
      rw [hp] at hpok
      simp only [Option.getD_some] at hpok
      by_contra hlt
      exact hpok ⟨hfloor, by omega, by omega⟩

/-- C10 amended witness: the floor is preserved across a concrete prose
match. -/
theorem C10_amended_prose_floor_monotone_witness :
    (0 : ℤ) ≤ ({} : AlignState).last_matched_page_idx ∧
    ({} : AlignState).last_matched_page_idx ≤
      (processBlock (stableSort (fun x y => keyLt (candKey x) (candKey y))
          (prepareCandidatesTables c10cands).1) [] {} 0 (str "# fivepage")).last_matched_page_idx :=
  ⟨by decide,
   C10_amended_prose_floor_monotone
    (stableSort (fun x y => keyLt (candKey x) (candKey y)) (prepareCandidatesTables c10cands).1)
    [] {} 0 (str "# fivepage") (by decide) (by decide)
    (by decide)⟩

theorem sim_self (tn : Str) (h1 : tn ≠ []) (h2 : normalize_match_text tn = tn) :
    calculate_text_similarity tn tn = Rat.divInt 6 5 := by
  simp only [calculate_text_similarity, h2]
  rw [if_pos trivial]
  have hg : ¬ (tn = [] ∨ tn = []) := by simp [h1]
  rw [if_neg hg, if_neg hg]

theorem anchorLoop_broke (tn : Str) (cands : List Candidate) (heading : Bool)
    (minp : ℤ) (fuel i : ℕ) (acc : AnchorAcc) (h : acc.broke = true) :
    anchorLoop tn cands heading minp fuel i acc = acc := by
  cases fuel with
  | zero => rfl
  | succ fuel =>
    unfold anchorLoop
    rw [if_pos h]

theorem anchorStep_low (tn : Str) (cands : List Candidate) (heading : Bool) (minp : ℤ)
    (i : ℕ) (acc : AnchorAcc)
    (hscore : anchorScore tn cands i ≤ Rat.divInt 19 20)
    (hbroke : acc.broke = false) (hbs : acc.best_score ≤ Rat.divInt 19 20) :
    (anchorStep tn cands heading minp i acc).broke = false ∧
    (anchorStep tn cands heading minp i acc).best_score ≤ Rat.divInt 19 20 := by
  unfold anchorStep
  cases hget : cands[i]? with
  | none => exact ⟨hbroke, hbs⟩
  | some cand =>
    have hgd : cands.getD i cdummy = cand := by
      rw [List.getD_eq_getElem?_getD, hget]
      rfl
    have hscore' : calculate_text_similarity tn
        (normalize_match_text (cand.item.text?.getD [])) ≤ Rat.divInt 19 20 := by
      unfold anchorScore at hscore
      rw [hgd] at hscore
      exact hscore
    dsimp only
    split
    · exact ⟨hbroke, hbs⟩
    · split
      · exact ⟨hbroke, hbs⟩
      · split
        · split
          · exact ⟨hbroke, hbs⟩
          · rw [if_neg (by exact not_lt.mpr hscore')]
            split
            · exact ⟨hbroke, hscore'⟩
            · exact ⟨hbroke, hbs⟩
        · exact ⟨hbroke, hbs⟩

theorem anchorStep_exact (tn : Str) (cands : List Candidate) (minp : ℤ)
    (j : ℕ) (acc : AnchorAcc)
    (htn : normalize_match_text tn = tn) (htne : tn ≠ [])
    (hj : j < cands.length)
    (hnorm : normalize_match_text ((cands.getD j cdummy).item.text?.getD []) = tn)
    (hpage : anchorPageOk cands minp j)
    (hbs : acc.best_score ≤ Rat.divInt 19 20) :
    (anchorStep tn cands false minp j acc).best_idx = some j ∧
    (anchorStep tn cands false minp j acc).broke = true := by
  unfold anchorStep
  rw [List.getElem?_eq_getElem hj]
  have hgd : cands.getD j cdummy = cands[j] := by
    rw [List.getD_eq_getElem?_getD, List.getElem?_eq_getElem hj]
    rfl
  unfold anchorPageOk at hpage
  rw [hgd] at hnorm hpage
  dsimp only
  rw [if_neg (by rw [hnorm]; exact htne)]
  rw [if_neg hpage]
  have hsim : calculate_text_similarity tn
      (normalize_match_text (cands[j].item.text?.getD [])) = Rat.divInt 6 5 := by
    rw [hnorm]
    exact sim_self tn htne htn
  rw [if_pos (by rw [hsim]; decide)]
  rw [if_neg (by simp)]
  rw [if_pos (by rw [hsim]; decide)]
  rw [if_pos (by rw [hsim]
                 exact lt_of_le_of_lt hbs (show Rat.divInt 19 20 < Rat.divInt 6 5 by decide))]
  exact ⟨rfl, rfl⟩

theorem anchorLoop_hits (tn : Str) (cands : List Candidate) (minp : ℤ) (j : ℕ)
    (htn : normalize_match_text tn = tn) (htne : tn ≠ [])
    (hj : j < cands.length)
    (hnorm : normalize_match_text ((cands.getD j cdummy).item.text?.getD []) = tn)
    (hpage : anchorPageOk cands minp j) :
    ∀ (fuel i : ℕ) (acc : AnchorAcc), i ≤ j → j < i + fuel →
      acc.broke = false → acc.best_score ≤ Rat.divInt 19 20 →
      (∀ k, i ≤ k → k < j → anchorScore tn cands k ≤ Rat.divInt 19 20) →
      (anchorLoop tn cands false minp fuel i acc).best_idx = some j := by
  intro fuel
  induction fuel with
  | zero =>
    intro i acc h1 h2
    omega
  | succ fuel ih =>
    intro i acc hij hjf hbroke hbs hks
    unfold anchorLoop
    rw [if_neg (by rw [hbroke]; simp)]
    by_cases hii : i = j
    · subst hii
      obtain ⟨hbi, hbr⟩ := anchorStep_exact tn cands minp i acc htn htne hj hnorm hpage hbs
      rw [anchorLoop_broke tn cands false minp fuel (i + 1) _ hbr]
      exact hbi
    · have hlow := anchorStep_low tn cands false minp i acc
        (hks i (le_refl i) (by omega)) hbroke hbs
      exact ih (i + 1) (anchorStep tn cands false minp i acc) (by omega) (by omega)
        hlow.1 hlow.2 (fun k h1 h2 => hks k (by omega) h2)

/-- Two candidates for the early-exit scenario: the first is a superstring
of the block text, the second the unique exact match. -/
def c8cands : List Candidate :=
  [{ item := { type? := some (str "text"), text? := some (str "aabbccddeeffa"),
               page_idx := some 0, bbox := some (0, 0, 10, 10) },
     norm := str "aabbccddeeffa" },
   { item := { type? := some (str "text"), text? := some (str "aabbccddeeff"),
               page_idx := some 0, bbox := some (0, 0, 10, 10) },
     norm := str "aabbccddeeff" }]

/-- C8 counterexample: the first candidate scores 72/65 (above the 0.95
early-exit threshold) against the block, so the scan breaks before ever
reaching the second candidate, whose normalized text is the unique exact
match; index 0 is selected instead of the exact match at index 1. -/
theorem C8_exact_match_counterexample :
    best_anchor_in_window (str "aabbccddeeff") c8cands 0 10 false (-1) = some 0 ∧
    normalize_match_text ((c8cands.getD 1 cdummy).item.text?.getD []) =
      normalize_match_text (str "aabbccddeeff") ∧
    ¬ (normalize_match_text ((c8cands.getD 0 cdummy).item.text?.getD []) =
      normalize_match_text (str "aabbccddeeff")) := by
  refine ⟨by decide, by decide, by decide⟩

/-- C8 amended: for a non-heading block, a candidate whose normalized text
exactly equals the block's non-empty normalized text is selected, provided
it lies in the searched window, passes the page floor, and no earlier
window candidate scores above 0.95 (such a candidate would trigger the
early exit of line 103-104 first, as the counterexample shows). -/
theorem C8_amended_exact_match_selected (target : Str) (cands : List Candidate)
    (start w : ℕ) (minp : ℤ) (j : ℕ)
    (hs : start ≤ j) (hw : j < min cands.length (start + w))
    (htn : normalize_match_text target ≠ [])
    (heq : normalize_match_text ((cands.getD j cdummy).item.text?.getD []) =
      normalize_match_text target)
    (hpage : anchorPageOk cands minp j)
    (hearlier : ∀ k, start ≤ k → k < j →
      anchorScore (normalize_match_text target) cands k ≤ Rat.divInt 19 20) :
    best_anchor_in_window target cands start w false minp = some j := by
  have htarget : target ≠ [] := fun e => htn (by rw [e]; rfl)
  unfold best_anchor_in_window
  rw [if_neg htarget]
  dsimp only
  rw [if_neg htn]
  have hjlen : j < cands.length := lt_of_lt_of_le hw (min_le_left _ _)
  have hloop := anchorLoop_hits (normalize_match_text target) cands minp j
    (normalize_match_text_idem target) htn hjlen heq hpage
    (min cands.length (start + w) - start) start {} hs
    (by have := min_le_left cands.length (start + w); omega)
    rfl (by decide) hearlier
  unfold anchorFinish
  rw [hloop]

/-- C8 amended witness: a unique exact match with no earlier
high-scoring candidate is selected. -/
theorem C8_amended_exact_match_selected_witness :
    best_anchor_in_window (str "fivepage")
      (stableSort (fun x y => keyLt (candKey x) (candKey y))
        (prepareCandidatesTables c10cands).1) 0 350 false 0 = some 0 :=
  C8_amended_exact_match_selected (str "fivepage")
    (stableSort (fun x y => keyLt (candKey x) (candKey y)) (prepareCandidatesTables c10cands).1)
    0 350 0 0 (by decide) (by decide) (by decide) (by decide)
    (by unfold anchorPageOk; decide)
    (fun k h1 h2 => absurd h2 (by omega))

/-- The spec's notion of a non-spanning cell: both spans equal 1. -/
def nonSpanning (c : Cell) : Bool :=
  decide (c.row_span = 1) && decide (c.col_span = 1)

theorem nonSpanning_update (a : Cell) (x : ℤ) : nonSpanning { a with r := x } = nonSpanning a :=
  rfl

theorem foldl_max_le (xs : List ℤ) (m : ℤ) :
    ∀ x, x ≤ m → (∀ y ∈ xs, y ≤ m) → xs.foldl max x ≤ m := by
  induction xs with
  | nil => intro x hx _; exact hx
  | cons y ys ih =>
    intro x hx hall
    simp only [List.foldl_cons]
    exact ih (max x y) (max_le hx (hall y (List.mem_cons_self y ys)))
      (fun z hz => hall z (List.mem_cons_of_mem _ hz))

theorem le_foldl_max (xs : List ℤ) : ∀ x, x ≤ xs.foldl max x := by
  induction xs with
  | nil => intro x; exact le_refl x
  | cons y ys ih =>
    intro x
    exact le_trans (le_max_left x y) (ih (max x y))

theorem mem_le_foldl_max (xs : List ℤ) : ∀ x y, y ∈ xs → y ≤ xs.foldl max x := by
  induction xs with
  | nil => intro x y h; cases h
  | cons z zs ih =>
    intro x y h
    cases h with
    | head => exact le_trans (le_max_right x z) (le_foldl_max zs _)
    | tail _ h => exact ih _ y h

theorem le_maxRowOf (cells : List Cell) (cell : Cell) (h : cell ∈ cells) :
    cell.r ≤ maxRowOf cells := by
  unfold maxRowOf
  cases hm : cells.map (·.r) with
  | nil =>
    rw [List.map_eq_nil_iff] at hm
    subst hm
    cases h
  | cons x xs =>
    have hmem : cell.r ∈ x :: xs := hm ▸ List.mem_map_of_mem _ h
    cases hmem with
    | head => exact le_foldl_max xs _
    | tail _ ht => exact mem_le_foldl_max xs _ _ ht

theorem maxRowOf_le (cells : List Cell) (m : ℤ) (hm : -1 ≤ m)
    (h : ∀ cell ∈ cells, cell.r ≤ m) : maxRowOf cells ≤ m := by
  unfold maxRowOf
  cases hmap : cells.map (·.r) with
  | nil => exact hm
  | cons x xs =>
    have hall : ∀ y ∈ x :: xs, y ≤ m := by
      intro y hy
      rw [← hmap] at hy
      rcases List.mem_map.mp hy with ⟨cell, hc, rfl⟩
      exact h cell hc
    exact foldl_max_le xs m x (hall x (List.mem_cons_self _ _))
      (fun z hz => hall z (List.mem_cons_of_mem _ hz))

theorem stableInsert_perm (lt : α → α → Bool) (a : α) (l : List α) :
    (stableInsert lt a l).Perm (a :: l) := by
  induction l with
  | nil => exact List.Perm.refl _
  | cons b bs ih =>
    unfold stableInsert
    split
    · exact (ih.cons b).trans (List.Perm.swap a b bs)
    · exact List.Perm.refl _

theorem stableSort_perm (lt : α → α → Bool) (l : List α) : (stableSort lt l).Perm l := by
  induction l with
  | nil => exact List.Perm.refl _
  | cons a as ih =>
    unfold stableSort
    exact (stableInsert_perm lt a (stableSort lt as)).trans (ih.cons a)

theorem headerRowsOf_nodup (cells : List Cell) : (headerRowsOf cells).Nodup :=
  ((stableSort_perm _ _).nodup_iff).mpr (List.nodup_dedup _)

theorem mem_headerRowsOf (cells : List Cell) (h : ℤ) :
    h ∈ headerRowsOf cells ↔ ∃ cell ∈ cells, cell.is_header = true ∧ cell.r = h := by
  unfold headerRowsOf
  rw [(stableSort_perm _ _).mem_iff, List.mem_dedup, List.mem_map]
  constructor
  · rintro ⟨cell, hc, rfl⟩
    exact ⟨cell, List.mem_of_mem_filter hc, List.of_mem_filter hc, rfl⟩
  · rintro ⟨cell, hc, hh, rfl⟩
    exact ⟨cell, List.mem_filter.mpr ⟨hc, hh⟩, rfl⟩

theorem nodup_int_length_le (l : List ℤ) (a b : ℤ) (hnd : l.Nodup) (hab : a ≤ b)
    (hmem : ∀ x ∈ l, a ≤ x ∧ x < b) : (l.length : ℤ) ≤ b - a := by
  have hsub : l.toFinset ⊆ Finset.Ico a b := by
    intro x hx
    rw [List.mem_toFinset] at hx
    exact Finset.mem_Ico.mpr (hmem x hx)
  have hcard := Finset.card_le_card hsub
  rw [List.toFinset_card_of_nodup hnd, Int.card_Ico] at hcard
  omega

theorem length_filter_split (p : ℤ → Bool) (l : List ℤ) :
    (l.filter p).length + (l.filter (fun x => !(p x))).length = l.length := by
  induction l with
  | nil => rfl
  | cons x xs ih =>
    simp only [List.filter_cons]
    by_cases hx : p x = true
    · rw [if_pos hx, if_neg (by simp [hx])]
      simp only [List.length_cons]
      omega
    · rw [if_neg hx, if_pos (by simp [hx])]
      simp only [List.length_cons]
      omega

theorem renumber_lower (H : List ℤ) (r : ℤ) (hnd : H.Nodup)
    (hmemH : ∀ h ∈ H, 0 ≤ h) (hr0 : 0 ≤ r) :
    ((H.filter (· < r)).length : ℤ) ≤ r := by
  have := nodup_int_length_le (H.filter (· < r)) 0 r (hnd.filter _) hr0 ?_
  · omega
  · intro x hx
    refine ⟨hmemH x (List.mem_of_mem_filter hx), ?_⟩
    have := List.of_mem_filter hx
    simpa using this

theorem renumber_upper (H : List ℤ) (nB r : ℤ) (hnd : H.Nodup)
    (hmemH : ∀ h ∈ H, 0 ≤ h ∧ h < nB - 1) (hr : r < nB) (hr0 : 0 ≤ r) :
    r - ((H.filter (· < r)).length : ℤ) ≤ nB - 1 - (H.length : ℤ) := by
  have hsplit := length_filter_split (fun h => decide (h < r)) H
  have hrest : ((H.filter (fun h => !(decide (h < r)))).length : ℤ) ≤ nB - 1 - r := by
    apply nodup_int_length_le _ r (nB - 1) (hnd.filter _) (by omega)
    intro x hx
    have hxH := List.mem_of_mem_filter hx
    have hxp := List.of_mem_filter hx
    simp only [Bool.not_eq_true', decide_eq_false_iff_not, not_lt] at hxp
    exact ⟨hxp, (hmemH x hxH).2⟩
  omega

theorem renumber_strict_mono (H : List ℤ) (hnd : H.Nodup) (r1 r2 : ℤ)
    (h12 : r1 < r2) (h1 : r1 ∉ H) :
    r1 - ((H.filter (· < r1)).length : ℤ) < r2 - ((H.filter (· < r2)).length : ℤ) := by
  have hsplit := length_filter_split (fun h => decide (h < r1)) (H.filter (· < r2))
  have hcc : (H.filter (· < r2)).filter (fun h => decide (h < r1)) = H.filter (· < r1) := by
    rw [List.filter_filter]
    apply List.filter_congr
    intro a _
    by_cases h : a < r1
    · simp [h, show a < r2 by omega]
    · simp [h]
  have hmid : (((H.filter (· < r2)).filter (fun h => !(decide (h < r1)))).length : ℤ) ≤
      r2 - (r1 + 1) := by
    apply nodup_int_length_le _ (r1 + 1) r2 ((hnd.filter _).filter _) (by omega)
    intro x hx
    have hx2 := List.mem_of_mem_filter hx
    have hxH := List.mem_of_mem_filter hx2
    have hxlt : x < r2 := by simpa using List.of_mem_filter hx2
    have hxge : ¬ x < r1 := by
      have := List.of_mem_filter hx
      simpa using this
    have hxne : x ≠ r1 := fun e => h1 (e ▸ hxH)
    exact ⟨by omega, hxlt⟩
  rw [hcc] at hsplit
  omega

theorem contRenumber_some (H : List ℤ) (off : ℤ) (a b : Cell)
    (h : contRenumber H off a = some b) :
    a.r ∉ H ∧ b = { a with r := a.r - ((H.filter (· < a.r)).length : ℤ) + off } := by
  unfold contRenumber at h
  by_cases ha : a.r ∈ H
  · rw [if_pos ha] at h
    cases h
  · rw [if_neg ha] at h
    exact ⟨ha, (Option.some.inj h).symm⟩

theorem contRenumber_eq_some (H : List ℤ) (off : ℤ) (a : Cell) (ha : a.r ∉ H) :
    contRenumber H off a =
      some { a with r := a.r - ((H.filter (· < a.r)).length : ℤ) + off } := by
  unfold contRenumber
  rw [if_neg ha]

theorem bpart_pairs (H : List ℤ) (off : ℤ) (nt : List Cell) :
    ((nt.filterMap (contRenumber H off)).filter nonSpanning).map (fun c => (c.r, c.c)) =
      ((nt.filter nonSpanning).map (fun c => (c.r, c.c))).filterMap
        (fun p => if p.1 ∈ H then none
          else some (p.1 - ((H.filter (· < p.1)).length : ℤ) + off, p.2)) := by
  induction nt with
  | nil => rfl
  | cons a as ih =>
    by_cases h1 : a.r ∈ H <;> by_cases h2 : nonSpanning a = true <;>
      simp [List.filterMap_cons, List.filter_cons, contRenumber, h1, h2, ih,
        nonSpanning_update]

/-- C9 amended: when the accumulated cells occupy rows `0..nA-1` (top row
attained), the continuation's cells occupy rows `0..nB-1` with its last row
present and not a header row, and the non-spanning `(row, col)` pairs of
each side are duplicate-free, the merge of
`_build_md_first_content_list` lines 365-377 yields maximum row index
`nA + nB - headerRows(B) - 1` and keeps the non-spanning `(row, col)`
pairs duplicate-free.  Without the contiguity hypotheses the spec's
row-count equation fails (see the counterexample). -/
theorem C9_amended_continuation_merge (combined nt : List Cell) (nA nB : ℤ)
    (hA1 : ∀ cell ∈ combined, 0 ≤ cell.r ∧ cell.r < nA)
    (hA2 : ∃ cell ∈ combined, cell.r = nA - 1)
    (hB1 : ∀ cell ∈ nt, 0 ≤ cell.r ∧ cell.r < nB)
    (hB2 : ∃ cell ∈ nt, cell.r = nB - 1)
    (hlast : (nB - 1) ∉ headerRowsOf nt)
    (hndA : ((combined.filter nonSpanning).map (fun c => (c.r, c.c))).Nodup)
    (hndB : ((nt.filter nonSpanning).map (fun c => (c.r, c.c))).Nodup) :
    maxRowOf (merge_continuation_cells combined nt) =
      nA + nB - ((headerRowsOf nt).length : ℤ) - 1 ∧
    (((merge_continuation_cells combined nt).filter nonSpanning).map
      (fun c => (c.r, c.c))).Nodup := by
  obtain ⟨a0, ha0, ha0r⟩ := hA2
  obtain ⟨b0, hb0, hb0r⟩ := hB2
  have hnA : 1 ≤ nA := by have := hA1 a0 ha0; omega
  have hnB : 1 ≤ nB := by have := hB1 b0 hb0; omega
  have hHnd := headerRowsOf_nodup nt
  have hmemH : ∀ h ∈ headerRowsOf nt, 0 ≤ h ∧ h < nB - 1 := by
    intro h hh
    rcases (mem_headerRowsOf nt h).mp hh with ⟨cell, hc, _, hr⟩
    have hbc := hB1 cell hc
    have hne : h ≠ nB - 1 := fun e => hlast (e ▸ hh)
    omega
  have hHlen : ((headerRowsOf nt).length : ℤ) ≤ nB - 1 := by
    have := nodup_int_length_le _ 0 (nB - 1) hHnd (by omega) hmemH
    omega
  have hmaxA : maxRowOf combined = nA - 1 := by
    apply le_antisymm
    · exact maxRowOf_le _ _ (by omega) (fun c hc => by have := hA1 c hc; omega)
    · have := le_maxRowOf combined a0 ha0
      omega
  have hoff : maxRowOf combined + 1 = nA := by omega
  have hmerge : merge_continuation_cells combined nt =
      combined ++ nt.filterMap (contRenumber (headerRowsOf nt) nA) := by
    show combined ++ nt.filterMap (contRenumber (headerRowsOf nt) (maxRowOf combined + 1)) =
      combined ++ nt.filterMap (contRenumber (headerRowsOf nt) nA)
    rw [hoff]
  constructor
  · rw [hmerge]
    apply le_antisymm
    · apply maxRowOf_le
      · omega
      · intro cell hc
        rcases List.mem_append.mp hc with hcA | hcB
        · have := hA1 cell hcA
          omega
        · rcases List.mem_filterMap.mp hcB with ⟨a, ha, hfa⟩
          obtain ⟨haH, rfl⟩ := contRenumber_some _ _ _ _ hfa
          have hub := renumber_upper (headerRowsOf nt) nB a.r hHnd hmemH
            (hB1 a ha).2 (hB1 a ha).1
          show a.r - (((headerRowsOf nt).filter (· < a.r)).length : ℤ) + nA ≤
            nA + nB - ((headerRowsOf nt).length : ℤ) - 1
          omega
    · have hb0H : b0.r ∉ headerRowsOf nt := by
        rw [hb0r]
        exact hlast
      have hcntb0 : (headerRowsOf nt).filter (· < b0.r) = headerRowsOf nt := by
        apply List.filter_eq_self.mpr
        intro h hh
        have := hmemH h hh
        simp only [decide_eq_true_eq]
        omega
      have hmem : ({ b0 with r := b0.r - ((headerRowsOf nt).length : ℤ) + nA } : Cell) ∈
          combined ++ nt.filterMap (contRenumber (headerRowsOf nt) nA) := by
        apply List.mem_append_right
        apply List.mem_filterMap.mpr
        exact ⟨b0, hb0, by rw [contRenumber_eq_some _ _ _ hb0H, hcntb0]⟩
      have h2 : b0.r - ((headerRowsOf nt).length : ℤ) + nA ≤
          maxRowOf (combined ++ nt.filterMap (contRenumber (headerRowsOf nt) nA)) :=
        le_maxRowOf _ _ hmem
      omega
  · rw [hmerge, List.filter_append, List.map_append]
    apply List.Nodup.append
    · exact hndA
    · rw [bpart_pairs]
      refine hndB.filterMap ?_
      intro p p' q hq hq'
      by_cases h1 : p.1 ∈ headerRowsOf nt
      · rw [if_pos h1] at hq
        cases hq
      · by_cases h1' : p'.1 ∈ headerRowsOf nt
        · rw [if_pos h1'] at hq'
          cases hq'
        · rw [if_neg h1] at hq
          rw [if_neg h1'] at hq'
          have e1 := Option.some.inj hq
          have e2 := Option.some.inj hq'
          rw [← e2] at e1
          injection e1 with ef es
          have e0 : p.1 = p'.1 := by
            rcases lt_trichotomy p.1 p'.1 with hlt | heq | hgt
            · have := renumber_strict_mono (headerRowsOf nt) hHnd p.1 p'.1 hlt h1
              omega
            · exact heq
            · have := renumber_strict_mono (headerRowsOf nt) hHnd p'.1 p.1 hgt h1'
              omega
          exact Prod.ext e0 es
    · intro q hqA hqB
      rcases List.mem_map.mp hqA with ⟨cellA, hcA, rfl⟩
      have hApage := hA1 cellA (List.mem_of_mem_filter hcA)
      rw [bpart_pairs] at hqB
      rcases List.mem_filterMap.mp hqB with ⟨p, hp, hfp⟩
      rcases List.mem_map.mp hp with ⟨cellB, hcB, rfl⟩
      have hBpage := hB1 cellB (List.mem_of_mem_filter hcB)
      dsimp only at hfp
      by_cases h1 : cellB.r ∈ headerRowsOf nt
      · rw [if_pos h1] at hfp
        cases hfp
      · rw [if_neg h1] at hfp
        have e := congrArg Prod.fst (Option.some.inj hfp)
        dsimp only at e
        have hlow := renumber_lower (headerRowsOf nt) cellB.r hHnd
          (fun h hh => (hmemH h hh).1) hBpage.1
        omega

/-- A matched one-column table on page 2 occupying rows 0 and 1. -/
def c9A : TableDef :=
  { id := str "tA", page_idx := some 2, bbox := some (0, 0, 10, 10),
    cells := [{ r := 0, c := 0 }, { r := 1, c := 0 }], is_enriched := true }

/-- An unused one-column continuation on page 3 whose non-header row index
jumps to 5. -/
def c9B : TableDef :=
  { id := str "tB", page_idx := some 3, bbox := some (0, 0, 10, 10),
    cells := [{ r := 0, c := 0, is_header := true }, { r := 5, c := 0 }],
    is_enriched := true }

/-- C9 counterexample: the continuation scan does merge `c9B` into `c9A`
(consecutive pages, identical positive column counts), and the merge
renumbers row 5 to `5 - 1 + 2 = 6`, so the merged maximum row index is 6,
while the spec's equation `rows(A) + rows(B) - headerRows(B) - 1` gives
`2 + 2 - 1 - 1 = 2`: the equation fails when the continuation's row
indices are not contiguous. -/
theorem C9_max_row_counterexample :
    (contLoop [c9A, c9B] 1
        { t := c9A, ids := [c9A.id], combined := c9A.cells, used := [0], last := 2,
          next_idx := 1 }).combined.map (·.r) = [0, 1, 6] ∧
    distinctCols c9A.cells = distinctCols c9B.cells ∧ distinctCols c9A.cells > 0 ∧
    maxRowOf (merge_continuation_cells c9A.cells c9B.cells) = 6 ∧
    ((c9A.cells.map (·.r)).dedup.length : ℤ) + ((c9B.cells.map (·.r)).dedup.length : ℤ)
        - ((headerRowsOf c9B.cells).length : ℤ) - 1 = 2 ∧
    ¬ ((6 : ℤ) = 2) := by
  refine ⟨by decide, by decide, by decide, by decide, by decide, by decide⟩

/-- Accumulated cells of the amended-claim witness: two contiguous rows. -/
def c9wA : List Cell :=
  [{ r := 0, c := 0 }, { r := 1, c := 0 }, { r := 1, c := 1 }]

/-- Continuation cells of the amended-claim witness: a header row 0 and a
data row 1. -/
def c9wB : List Cell :=
  [{ r := 0, c := 0, is_header := true }, { r := 0, c := 1, is_header := true },
   { r := 1, c := 0 }, { r := 1, c := 1 }]

/-- C9 amended witness: a contiguous two-row table merged with a contiguous
two-row continuation whose first row is a header. -/
theorem C9_amended_continuation_merge_witness :
    maxRowOf (merge_continuation_cells c9wA c9wB) =
      2 + 2 - ((headerRowsOf c9wB).length : ℤ) - 1 ∧
    (((merge_continuation_cells c9wA c9wB).filter nonSpanning).map
      (fun c => (c.r, c.c))).Nodup :=
  C9_amended_continuation_merge c9wA c9wB 2 2 (by decide) (by decide) (by decide)
    (by decide) (by decide) (by decide) (by decide)

end MinerPick
